import Mathlib

/-
Verification of the theme-toggle / placement logic of the Ehan-site-V.2
repository (src/unnamed/part_000, with src/features.js as an earlier variant).

The DOM is modelled as a tree of elements; each element carries a numeric
identity (standing for JS object identity), its tag name, its class list and
its text content.  document.querySelector is first-match in document
pre-order; element.querySelector searches strict descendants only;
classList.add / remove / toggle follow DOMTokenList semantics.
localStorage is modelled as a single optional string (the value under the
key "theme") together with an availability mode: in a browser where storage
is disabled, reading or writing localStorage throws, which is modelled with
Except.  Event-listener registration (window.addEventListener) and the
onclick binding are not modelled: they do not affect the document state that
the claims are about.
-/

namespace EhanSite

/-- Payload of a DOM node: identity, tag name, class list, text content. -/
structure Elem where
  eid : Nat
  tag : String
  classes : List String
  text : String
deriving DecidableEq

/-- DOM tree: an element together with its list of child nodes.
The root of the document tree models document.body. -/
inductive DNode : Type where
  | node : Elem → List DNode → DNode

/-- Root element of a tree. -/
def rootElem : DNode → Elem
  | .node e _ => e

/-- Identity of the root element. -/
def rootId (d : DNode) : Nat := (rootElem d).eid

/-- Child list of the root. -/
def childrenOf : DNode → List DNode
  | .node _ cs => cs

/-- Test for membership of a class token, element.classList.contains. -/
def Elem.hasClass (e : Elem) (c : String) : Bool := e.classes.contains c

/-- classList.add: appends the token unless it is already present. -/
def addClassE (c : String) (e : Elem) : Elem :=
  if e.hasClass c then e else { e with classes := e.classes ++ [c] }

/-- classList.remove: removes the token. -/
def removeClassE (c : String) (e : Elem) : Elem :=
  { e with classes := e.classes.filter (fun x => x ≠ c) }

/-- classList.toggle: removes the token if present, else adds it. -/
def toggleClassE (c : String) (e : Elem) : Elem :=
  if e.hasClass c then removeClassE c e else addClassE c e

/-- Overwrite of the text content of an element. -/
def setTextE (v : String) (e : Elem) : Elem := { e with text := v }

mutual

/-- Elements of a tree in document (pre-)order. -/
def elems : DNode → List Elem
  | .node e cs => e :: elemsL cs

/-- Elements of a forest in document order. -/
def elemsL : List DNode → List Elem
  | [] => []
  | c :: cs => elems c ++ elemsL cs

end

/-- Identities of all elements of a tree in document order. -/
def docIds (d : DNode) : List Nat := (elems d).map Elem.eid

/-- Identities of all elements of a forest in document order. -/
def docIdsL (cs : List DNode) : List Nat := (elemsL cs).map Elem.eid

/-- Identities of the elements matching a predicate, in document order. -/
def collectIds (p : Elem → Bool) (d : DNode) : List Nat :=
  ((elems d).filter p).map Elem.eid

/-- document.querySelector: identity of the first element, in document
order, that matches the predicate. -/
def findId? (p : Elem → Bool) (d : DNode) : Option Nat :=
  (collectIds p d).head?

mutual

/-- Subtree rooted at the first element with the given identity. -/
def findNode? (i : Nat) : DNode → Option DNode
  | .node e cs => if e.eid = i then some (.node e cs) else findNodeL? i cs

/-- Subtree search in a forest. -/
def findNodeL? (i : Nat) : List DNode → Option DNode
  | [] => none
  | c :: cs =>
    match findNode? i c with
    | some r => some r
    | none => findNodeL? i cs

end

/-- Text content of the element with the given identity. -/
def textOfId? (i : Nat) (d : DNode) : Option String :=
  (findNode? i d).map (fun n => (rootElem n).text)

/-- element.querySelector scoped to node i: first match among the strict
descendants of the node with identity i. -/
def findIdWithin? (p : Elem → Bool) (i : Nat) (d : DNode) : Option Nat :=
  match findNode? i d with
  | some n => ((elemsL (childrenOf n)).filter p).map Elem.eid |>.head?
  | none => none

/-- Identities of the root nodes of a forest (the direct-children ids). -/
def idsOf (cs : List DNode) : List Nat := cs.map rootId

/-- Direct-children identities of the node with identity i. -/
def childIds (i : Nat) (d : DNode) : List Nat :=
  match findNode? i d with
  | some n => idsOf (childrenOf n)
  | none => []

/-- Direct-children identities of the document root. -/
def rootChildIds (d : DNode) : List Nat := idsOf (childrenOf d)

mutual

/-- Identity of the parent of the first node with identity i, parentNode. -/
def parentOf? (i : Nat) : DNode → Option Nat
  | .node e cs => if (idsOf cs).contains i then some e.eid else parentOfL? i cs

/-- Parent search in a forest. -/
def parentOfL? (i : Nat) : List DNode → Option Nat
  | [] => none
  | c :: cs =>
    match parentOf? i c with
    | some q => some q
    | none => parentOfL? i cs

end

mutual

/-- Pointwise update of every element carrying the given identity (with
distinct identities: of the one node the code holds a reference to). -/
def updateById (i : Nat) (f : Elem → Elem) : DNode → DNode
  | .node e cs => .node (if e.eid = i then f e else e) (updateByIdL i f cs)

/-- Pointwise update on a forest. -/
def updateByIdL (i : Nat) (f : Elem → Elem) : List DNode → List DNode
  | [] => []
  | c :: cs => updateById i f c :: updateByIdL i f cs

end

/-- classList.add on the element with identity i. -/
def addClassById (i : Nat) (c : String) (d : DNode) : DNode :=
  updateById i (addClassE c) d

/-- classList.remove on the element with identity i. -/
def removeClassById (i : Nat) (c : String) (d : DNode) : DNode :=
  updateById i (removeClassE c) d

/-- textContent assignment on the element with identity i. -/
def setTextById (i : Nat) (v : String) (d : DNode) : DNode :=
  updateById i (setTextE v) d

mutual

/-- Detachment of the subtree rooted at the first node with identity i:
returns the document without that subtree, and the subtree itself. -/
def extract (i : Nat) : DNode → DNode × Option DNode
  | .node e cs =>
    let r := extractL i cs
    (.node e r.1, r.2)

/-- Detachment in a forest. -/
def extractL (i : Nat) : List DNode → List DNode × Option DNode
  | [] => ([], none)
  | c :: cs =>
    if rootId c = i then (cs, some c)
    else
      let r := extract i c
      match r.2 with
      | some x => (r.1 :: cs, some x)
      | none =>
        let r2 := extractL i cs
        (c :: r2.1, r2.2)

end

mutual

/-- parent.appendChild(x) for parent with identity pid: x becomes the last
child of the first node with that identity. The flag reports success. -/
def appendChild (pid : Nat) (x : DNode) : DNode → DNode × Bool
  | .node e cs =>
    if e.eid = pid then (.node e (cs ++ [x]), true)
    else
      let r := appendChildL pid x cs
      (.node e r.1, r.2)

/-- appendChild in a forest. -/
def appendChildL (pid : Nat) (x : DNode) : List DNode → List DNode × Bool
  | [] => ([], false)
  | c :: cs =>
    let r := appendChild pid x c
    if r.2 then (r.1 :: cs, true)
    else
      let r2 := appendChildL pid x cs
      (c :: r2.1, r2.2)

end

mutual

/-- sid.parentNode.insertBefore(x, sid.nextSibling): x becomes the sibling
directly after the first node with identity sid. -/
def insertAfterSib (sid : Nat) (x : DNode) : DNode → DNode × Bool
  | .node e cs =>
    let r := insertAfterSibL sid x cs
    (.node e r.1, r.2)

/-- Sibling insertion (after) in a forest. -/
def insertAfterSibL (sid : Nat) (x : DNode) : List DNode → List DNode × Bool
  | [] => ([], false)
  | c :: cs =>
    if rootId c = sid then (c :: x :: cs, true)
    else
      let r := insertAfterSib sid x c
      if r.2 then (r.1 :: cs, true)
      else
        let r2 := insertAfterSibL sid x cs
        (c :: r2.1, r2.2)

end

mutual

/-- sid.parentNode.insertBefore(x, sid): x becomes the sibling directly
before the first node with identity sid. -/
def insertBeforeSib (sid : Nat) (x : DNode) : DNode → DNode × Bool
  | .node e cs =>
    let r := insertBeforeSibL sid x cs
    (.node e r.1, r.2)

/-- Sibling insertion (before) in a forest. -/
def insertBeforeSibL (sid : Nat) (x : DNode) : List DNode → List DNode × Bool
  | [] => ([], false)
  | c :: cs =>
    if rootId c = sid then (x :: c :: cs, true)
    else
      let r := insertBeforeSib sid x c
      if r.2 then (r.1 :: cs, true)
      else
        let r2 := insertBeforeSibL sid x cs
        (c :: r2.1, r2.2)

end

/-- document.body.insertBefore(x, document.body.firstChild). -/
def prependToRoot (x : DNode) : DNode → DNode
  | .node e cs => .node e (x :: cs)

/-- Node move, parent.appendChild(existingNode): first detach the subtree,
then append it under the node with identity pid.  If the target node sits
inside the moved subtree itself the real DOM raises a
HierarchyRequestError; that case is modelled as leaving the document
unchanged, and the well-formedness hypotheses of the theorems exclude it. -/
def moveIntoById (pid bid : Nat) (d : DNode) : DNode :=
  let r := extract bid d
  match r.2 with
  | none => d
  | some sub =>
    let a := appendChild pid sub r.1
    if a.2 then a.1 else d

/-- Largest identity present in the document. -/
def maxId (d : DNode) : Nat := (docIds d).foldr Nat.max 0

/-- Identity for a freshly created element, document.createElement. -/
def freshId (d : DNode) : Nat := maxId d + 1

/-! Translations of the source functions of src/unnamed/part_000. -/

/-- Feature flags object of the source (const features = { ... }). -/
structure Features where
  darkMode : Bool
  animations : Bool
  projectFilters : Bool

/-- Source line 9: const features with every flag set. -/
def features : Features :=
  { darkMode := true, animations := true, projectFilters := true }

/-- Source line 16: const MOBILE_BREAKPOINT = 768. -/
def MOBILE_BREAKPOINT : Nat := 768

/-- Comparison window.innerWidth <= MOBILE_BREAKPOINT used on source lines
103, 180, 190 and 198. -/
def viewportIsMobile (innerWidth : Nat) : Bool := innerWidth ≤ MOBILE_BREAKPOINT

/-- Enumeration of the two viewport classes of the specification. -/
inductive ViewportClass where
  | desktop
  | mobile
deriving DecidableEq

/-- Viewport classification induced by the breakpoint comparison. -/
def resolveViewportClass (innerWidth : Nat) : ViewportClass :=
  if viewportIsMobile innerWidth then .mobile else .desktop

/-- Selector '.theme-toggle'. -/
def isThemeToggle (e : Elem) : Bool := e.hasClass "theme-toggle"

/-- Selector 'nav'. -/
def isNavElem (e : Elem) : Bool := e.tag = "nav"

/-- Selector '.mobile-tools'. -/
def isMobileTools (e : Elem) : Bool := e.hasClass "mobile-tools"

/-- Selector '.header-actions'. -/
def isHeaderActions (e : Elem) : Bool := e.hasClass "header-actions"

/-- Selector '.nav-toggle'. -/
def isNavToggleBtn (e : Elem) : Bool := e.hasClass "nav-toggle"

/-- Selector '.theme-icon'. -/
def isThemeIcon (e : Elem) : Bool := e.hasClass "theme-icon"

/-- Selector '.theme-text'. -/
def isThemeTextSpan (e : Elem) : Bool := e.hasClass "theme-text"

/-- Truthiness of elem && elem.parentNode for an optional element. -/
def hasParentIn (d : DNode) (o : Option Nat) : Bool :=
  match o with
  | some i => (parentOf? i d).isSome
  | none => false

/-- Source lines 96-130, placeThemeToggleForViewport.  The viewport width
(window.innerWidth) is passed explicitly. -/
def placeThemeToggleForViewport (innerWidth : Nat) (d : DNode) : DNode :=
  match findId? isThemeToggle d with
  | none => d
  | some button =>
    let nav := findId? isNavElem d
    -- let mobileContainer = querySelector('.mobile-tools') || querySelector('.header-actions') || null
    let mobileContainer : Option Nat :=
      match findId? isMobileTools d with
      | some m => some m
      | none => findId? isHeaderActions d
    if viewportIsMobile innerWidth then
      -- ensure there is a mobile container to hold the toggle
      let resolved : DNode × Nat :=
        match mobileContainer with
        | some mc => (d, mc)
        | none =>
          let nid := freshId d
          let mc : DNode :=
            .node { eid := nid, tag := "div", classes := ["mobile-tools"], text := "" } []
          let navToggle := findId? isNavToggleBtn d
          let d1 :=
            if hasParentIn d navToggle then
              -- navToggle.parentNode.insertBefore(mobileContainer, navToggle.nextSibling)
              (insertAfterSib (navToggle.getD 0) mc d).1
            else if hasParentIn d nav then
              -- nav.parentNode.insertBefore(mobileContainer, nav)
              (insertBeforeSib (nav.getD 0) mc d).1
            else
              -- document.body.insertBefore(mobileContainer, document.body.firstChild)
              prependToRoot mc d
          (d1, nid)
      -- if (button.parentNode !== mobileContainer) mobileContainer.appendChild(button)
      let d2 :=
        if parentOf? button resolved.1 = some resolved.2 then resolved.1
        else moveIntoById resolved.2 button resolved.1
      addClassById button "theme-toggle-mobile" d2
    else
      -- if (nav && button.parentNode !== nav) nav.appendChild(button)
      let d2 :=
        match nav with
        | some nv => if parentOf? button d = some nv then d else moveIntoById nv button d
        | none => d
      removeClassById button "theme-toggle-mobile" d2

/-- Body of the forEach of updateAllToggleButtons for one '.theme-toggle'
button: both sub-elements are looked up, each present one is set. -/
def updateToggleButton (isDark : Bool) (bid : Nat) (d : DNode) : DNode :=
  let icon := findIdWithin? isThemeIcon bid d
  let txt := findIdWithin? isThemeTextSpan bid d
  let d1 :=
    match icon with
    | some i => setTextById i (if isDark then "☀️" else "🌙") d
    | none => d
  match txt with
  | some t => setTextById t (if isDark then "Light" else "Dark") d1
  | none => d1

/-- Source lines 37-45, updateAllToggleButtons: querySelectorAll takes a
static snapshot of the matching buttons, then each is updated in order. -/
def updateAllToggleButtons (isDark : Bool) (d : DNode) : DNode :=
  (collectIds isThemeToggle d).foldl (fun acc bid => updateToggleButton isDark bid acc) d

/-- Availability of the persisted store: in a browser with storage disabled
any localStorage access throws. -/
inductive StoreMode where
  | available
  | unavailable
deriving DecidableEq

/-- Exception raised by a localStorage access in a poor environment. -/
inductive StoreErr where
  | storeUnavailable
deriving DecidableEq

/-- State of the page: the document tree, the persisted value under the
localStorage key "theme", and the availability of the store. -/
structure SiteState where
  doc : DNode
  themeValue : Option String
  mode : StoreMode

/-- localStorage.setItem('theme', v). -/
def setItemTheme (s : SiteState) (v : String) : Except StoreErr SiteState :=
  match s.mode with
  | .available => .ok { s with themeValue := some v }
  | .unavailable => .error .storeUnavailable

/-- localStorage.getItem('theme'). -/
def getItemTheme (s : SiteState) : Except StoreErr (Option String) :=
  match s.mode with
  | .available => .ok s.themeValue
  | .unavailable => .error .storeUnavailable

/-- document.body.classList.contains(c): the root of the tree is the body. -/
def rootHasClass (c : String) (d : DNode) : Bool := (rootElem d).hasClass c

/-- document.body.classList.toggle(c). -/
def toggleClassRoot (c : String) : DNode → DNode
  | .node e cs => .node (toggleClassE c e) cs

/-- document.body.classList.add(c). -/
def addClassRoot (c : String) : DNode → DNode
  | .node e cs => .node (addClassE c e) cs

/-- Source lines 22-35, toggleTheme.  The unguarded localStorage.setItem is
the last step; its failure propagates out of the function. -/
def toggleTheme (s : SiteState) : Except StoreErr SiteState :=
  if !features.darkMode then .ok s
  else
    let d1 := toggleClassRoot "dark-theme" s.doc
    let isDark := rootHasClass "dark-theme" d1
    let d2 := updateAllToggleButtons isDark d1
    setItemTheme { s with doc := d2 } (if isDark then "dark" else "light")

/-- Source lines 47-57, loadSavedTheme. -/
def loadSavedTheme (s : SiteState) : Except StoreErr SiteState :=
  if !features.darkMode then .ok s
  else
    match getItemTheme s with
    | .error e => .error e
    | .ok savedTheme =>
      .ok
        (if savedTheme = some "dark" then
          { s with doc := addClassRoot "dark-theme" s.doc }
        else s)

/-- Enumeration ThemeState of the specification. -/
inductive ThemeState where
  | light
  | dark
deriving DecidableEq

/-- ThemeState denoted by a persisted value, after the branch condition
savedTheme === 'dark' of loadSavedTheme. -/
def loadedThemeState (savedTheme : Option String) : ThemeState :=
  if savedTheme = some "dark" then .dark else .light

/-- Source lines 59-94, addThemeToggleButton.  The returned list holds the
console.warn messages emitted by the call; the resize-listener registration
and the onclick binding of the created button are not modelled. -/
def addThemeToggleButton (innerWidth : Nat) (s : SiteState) : SiteState × List String :=
  if !features.darkMode then (s, [])
  else
    match findId? isNavElem s.doc with
    | none => (s, ["⚠️ Navigation not found"])
    | some nav =>
      if (findId? isThemeToggle s.doc).isSome then
        let d1 := updateAllToggleButtons (rootHasClass "dark-theme" s.doc) s.doc
        ({ s with doc := placeThemeToggleForViewport innerWidth d1 }, [])
      else
        let isDark := rootHasClass "dark-theme" s.doc
        let bid := freshId s.doc
        let button : DNode :=
          .node { eid := bid, tag := "button", classes := ["theme-toggle"], text := "" }
            [ .node
                { eid := bid + 1, tag := "span", classes := ["theme-icon"]
                  text := if isDark then "☀️" else "🌙" } []
            , .node
                { eid := bid + 2, tag := "span", classes := ["theme-text"]
                  text := if isDark then "Light" else "Dark" } [] ]
        let d1 := (appendChild nav button s.doc).1
        ({ s with doc := placeThemeToggleForViewport innerWidth d1 }, [])

/-! Well-formedness of a document. -/

/-- Elements whose presence inside the toggle button would make the real
code move a node into its own subtree (a DOM HierarchyRequestError) or
would make a container query resolve inside the button. -/
def specialElem (e : Elem) : Bool :=
  isNavElem e || isNavToggleBtn e || isMobileTools e || isHeaderActions e

/-- Condition that the document root (the body) is none of the elements the
placement code queries for. -/
def rootIsPlain (d : DNode) : Bool :=
  !(isThemeToggle (rootElem d)) && !(specialElem (rootElem d))

/-- Condition that the subtree of the toggle button, the button included,
holds no navigation, hamburger or container element. -/
def btnSubtreeClean (d : DNode) : Bool :=
  match findId? isThemeToggle d with
  | none => true
  | some b =>
    match findNode? b d with
    | some sub => ((elems sub).filter specialElem).isEmpty
    | none => true

/-- Well-formed document: distinct element identities, a plain root, at
most one toggle button, and no navigation or container elements inside the
toggle button. -/
def saneDoc (d : DNode) : Prop :=
  (docIds d).Nodup ∧ (collectIds isThemeToggle d).length ≤ 1 ∧
    rootIsPlain d = true ∧ btnSubtreeClean d = true

instance (d : DNode) : Decidable (saneDoc d) := by
  unfold saneDoc
  infer_instance

/-! Basic facts about elems. -/

theorem elems_node (e : Elem) (cs : List DNode) : elems (.node e cs) = e :: elemsL cs := by
  simp [elems]

theorem elemsL_append : ∀ cs ds : List DNode, elemsL (cs ++ ds) = elemsL cs ++ elemsL ds
  | [], ds => by simp [elemsL]
  | c :: cs, ds => by simp [elemsL, elemsL_append cs ds]

theorem docIds_node (e : Elem) (cs : List DNode) :
    docIds (.node e cs) = e.eid :: docIdsL cs := by
  simp [docIds, docIdsL, elems_node]

theorem rootElem_mem_elems : ∀ d : DNode, rootElem d ∈ elems d
  | .node e cs => by simp [rootElem, elems_node]

theorem rootId_mem_docIds (d : DNode) : rootId d ∈ docIds d := by
  exact List.mem_map_of_mem Elem.eid (rootElem_mem_elems d)

/-! Facts about updateById: it only rewrites element payloads in place. -/

mutual

theorem elems_updateById (i : Nat) (f : Elem → Elem) :
    ∀ d : DNode, elems (updateById i f d) = (elems d).map (fun e => if e.eid = i then f e else e)
  | .node e cs => by
    simp [updateById, elems_node, elemsL_updateByIdL i f cs]

theorem elemsL_updateByIdL (i : Nat) (f : Elem → Elem) :
    ∀ cs : List DNode,
      elemsL (updateByIdL i f cs) = (elemsL cs).map (fun e => if e.eid = i then f e else e)
  | [] => by simp [updateByIdL, elemsL]
  | c :: cs => by
    simp [updateByIdL, elemsL, elems_updateById i f c, elemsL_updateByIdL i f cs]

end

/-- Filter-and-project commutes with an update that preserves identities and
the predicate value. -/
theorem filterMap_update_eq (p : Elem → Bool) (i : Nat) (f : Elem → Elem)
    (hid : ∀ e, (f e).eid = e.eid) (hp : ∀ e, p (f e) = p e) (l : List Elem) :
    ((l.map (fun e => if e.eid = i then f e else e)).filter p).map Elem.eid
      = (l.filter p).map Elem.eid := by
  induction l with
  | nil => simp
  | cons a l ih =>
    by_cases ha : a.eid = i
    · by_cases hpa : p a
      · simp [ha, List.filter_cons, hp a, hpa, hid a, ih]
      · simp [ha, List.filter_cons, hp a, hpa, ih]
    · by_cases hpa : p a
      · simp [ha, List.filter_cons, hpa, ih]
      · simp [ha, List.filter_cons, hpa, ih]

theorem collectIds_updateById (p : Elem → Bool) (i : Nat) (f : Elem → Elem)
    (hid : ∀ e, (f e).eid = e.eid) (hp : ∀ e, p (f e) = p e) (d : DNode) :
    collectIds p (updateById i f d) = collectIds p d := by
  simp [collectIds, elems_updateById, filterMap_update_eq p i f hid hp]

theorem map_eid_update (i : Nat) (f : Elem → Elem) (hid : ∀ e, (f e).eid = e.eid)
    (l : List Elem) :
    (l.map (fun e => if e.eid = i then f e else e)).map Elem.eid = l.map Elem.eid := by
  induction l with
  | nil => simp
  | cons a l ih =>
    by_cases ha : a.eid = i <;> simp [ha, hid a, ih]

theorem docIds_updateById (i : Nat) (f : Elem → Elem) (hid : ∀ e, (f e).eid = e.eid)
    (d : DNode) : docIds (updateById i f d) = docIds d := by
  simp [docIds, elems_updateById, map_eid_update i f hid]

theorem findId?_updateById (p : Elem → Bool) (i : Nat) (f : Elem → Elem)
    (hid : ∀ e, (f e).eid = e.eid) (hp : ∀ e, p (f e) = p e) (d : DNode) :
    findId? p (updateById i f d) = findId? p d := by
  simp [findId?, collectIds_updateById p i f hid hp]

theorem rootElem_updateById (i : Nat) (f : Elem → Elem) :
    ∀ d : DNode, rootElem (updateById i f d)
      = if (rootElem d).eid = i then f (rootElem d) else rootElem d
  | .node e cs => by simp [updateById, rootElem]

theorem rootId_updateById (i : Nat) (f : Elem → Elem) (hid : ∀ e, (f e).eid = e.eid)
    (d : DNode) : rootId (updateById i f d) = rootId d := by
  rw [rootId, rootElem_updateById]
  by_cases h : (rootElem d).eid = i <;> simp [h, hid, rootId]

theorem idsOf_updateByIdL (i : Nat) (f : Elem → Elem) (hid : ∀ e, (f e).eid = e.eid) :
    ∀ cs : List DNode, idsOf (updateByIdL i f cs) = idsOf cs
  | [] => by simp [updateByIdL, idsOf]
  | c :: cs => by
    have h := idsOf_updateByIdL i f hid cs
    simp only [idsOf] at h
    simp only [updateByIdL, idsOf, List.map_cons, h, rootId_updateById i f hid c]

mutual

theorem parentOf?_updateById (j i : Nat) (f : Elem → Elem) (hid : ∀ e, (f e).eid = e.eid) :
    ∀ d : DNode, parentOf? j (updateById i f d) = parentOf? j d
  | .node e cs => by
    simp only [updateById, parentOf?, idsOf_updateByIdL i f hid cs]
    by_cases he : e.eid = i
    · simp [he, hid e, parentOfL?_updateByIdL j i f hid cs]
    · simp [he, parentOfL?_updateByIdL j i f hid cs]

theorem parentOfL?_updateByIdL (j i : Nat) (f : Elem → Elem) (hid : ∀ e, (f e).eid = e.eid) :
    ∀ cs : List DNode, parentOfL? j (updateByIdL i f cs) = parentOfL? j cs
  | [] => by simp [updateByIdL, parentOfL?]
  | c :: cs => by
    simp only [updateByIdL, parentOfL?, parentOf?_updateById j i f hid c,
      parentOfL?_updateByIdL j i f hid cs]

end

mutual

theorem findNode?_updateById (j i : Nat) (f : Elem → Elem) (hid : ∀ e, (f e).eid = e.eid) :
    ∀ d : DNode, findNode? j (updateById i f d) = (findNode? j d).map (updateById i f)
  | .node e cs => by
    simp only [updateById, findNode?]
    by_cases hj : e.eid = j
    · have h1 : (if e.eid = i then f e else e).eid = j := by
        by_cases he : e.eid = i
        · rw [if_pos he, hid e]
          exact hj
        · rw [if_neg he]
          exact hj
      rw [if_pos h1, if_pos hj]
      simp [updateById]
    · have h1 : ¬((if e.eid = i then f e else e).eid = j) := by
        by_cases he : e.eid = i
        · rw [if_pos he, hid e]
          exact hj
        · rw [if_neg he]
          exact hj
      rw [if_neg h1, if_neg hj]
      exact findNodeL?_updateByIdL j i f hid cs

theorem findNodeL?_updateByIdL (j i : Nat) (f : Elem → Elem) (hid : ∀ e, (f e).eid = e.eid) :
    ∀ cs : List DNode, findNodeL? j (updateByIdL i f cs) = (findNodeL? j cs).map (updateById i f)
  | [] => by simp [updateByIdL, findNodeL?]
  | c :: cs => by
    simp only [updateByIdL, findNodeL?, findNode?_updateById j i f hid c]
    cases findNode? j c with
    | none => simp [findNodeL?_updateByIdL j i f hid cs]
    | some n => simp

end

mutual

theorem updateById_comp (i : Nat) (f g : Elem → Elem) (hid : ∀ e, (g e).eid = e.eid) :
    ∀ d : DNode, updateById i f (updateById i g d) = updateById i (fun e => f (g e)) d
  | .node e cs => by
    simp only [updateById]
    by_cases he : e.eid = i
    · simp [he, hid e, updateByIdL_comp i f g hid cs]
    · simp [he, updateByIdL_comp i f g hid cs]

theorem updateByIdL_comp (i : Nat) (f g : Elem → Elem) (hid : ∀ e, (g e).eid = e.eid) :
    ∀ cs : List DNode, updateByIdL i f (updateByIdL i g cs) = updateByIdL i (fun e => f (g e)) cs
  | [] => by simp [updateByIdL]
  | c :: cs => by
    simp only [updateByIdL, updateById_comp i f g hid c, updateByIdL_comp i f g hid cs]

end

mutual

theorem updateById_congr (i : Nat) (f g : Elem → Elem) (h : ∀ e, f e = g e) :
    ∀ d : DNode, updateById i f d = updateById i g d
  | .node e cs => by
    simp only [updateById, updateByIdL_congr i f g h cs]
    by_cases he : e.eid = i <;> simp [he, h e]

theorem updateByIdL_congr (i : Nat) (f g : Elem → Elem) (h : ∀ e, f e = g e) :
    ∀ cs : List DNode, updateByIdL i f cs = updateByIdL i g cs
  | [] => by simp [updateByIdL]
  | c :: cs => by
    simp only [updateByIdL, updateById_congr i f g h c, updateByIdL_congr i f g h cs]

end

/-! Facts about the classList operations on a single element. -/

theorem addClassE_eid (c : String) (e : Elem) : (addClassE c e).eid = e.eid := by
  unfold addClassE
  by_cases h : e.hasClass c <;> simp [h]

theorem removeClassE_eid (c : String) (e : Elem) : (removeClassE c e).eid = e.eid := by
  simp [removeClassE]

theorem setTextE_eid (v : String) (e : Elem) : (setTextE v e).eid = e.eid := by
  simp [setTextE]

theorem addClassE_tag (c : String) (e : Elem) : (addClassE c e).tag = e.tag := by
  unfold addClassE
  by_cases h : e.hasClass c <;> simp [h]

theorem removeClassE_tag (c : String) (e : Elem) : (removeClassE c e).tag = e.tag := by
  simp [removeClassE]

theorem addClassE_hasClass_other (c c' : String) (hne : c' ≠ c) (e : Elem) :
    (addClassE c e).hasClass c' = e.hasClass c' := by
  unfold addClassE
  by_cases h : e.hasClass c
  · simp [h]
  · have h' : c ∉ e.classes := by simpa [Elem.hasClass] using h
    simp [h', Elem.hasClass, hne]

theorem removeClassE_hasClass_other (c c' : String) (hne : c' ≠ c) (e : Elem) :
    (removeClassE c e).hasClass c' = e.hasClass c' := by
  simp only [removeClassE, Elem.hasClass, List.contains, List.elem_eq_mem,
    decide_eq_decide, List.mem_filter, decide_eq_true_eq]
  constructor
  · intro h
    exact h.1
  · intro h
    exact ⟨h, hne⟩

theorem addClassE_idem (c : String) (e : Elem) :
    addClassE c (addClassE c e) = addClassE c e := by
  unfold addClassE
  by_cases h : e.hasClass c
  · simp [h]
  · have h2 : Elem.hasClass { e with classes := e.classes ++ [c] } c = true := by
      simp [Elem.hasClass]
    simp [h, h2]

theorem removeClassE_idem (c : String) (e : Elem) :
    removeClassE c (removeClassE c e) = removeClassE c e := by
  simp [removeClassE, List.filter_filter]

theorem setTextE_hasClass (v : String) (c : String) (e : Elem) :
    (setTextE v e).hasClass c = e.hasClass c := by
  simp [setTextE, Elem.hasClass]

theorem setTextE_tag (v : String) (e : Elem) : (setTextE v e).tag = e.tag := by
  simp [setTextE]

/-! Membership helpers. -/

theorem contains_iff_mem (l : List Nat) (a : Nat) : l.contains a = true ↔ a ∈ l := by
  simp [List.contains, List.elem_eq_mem]

theorem docIdsL_nil : docIdsL [] = [] := by
  simp [docIdsL, elemsL]

theorem docIdsL_cons (c : DNode) (cs : List DNode) :
    docIdsL (c :: cs) = docIds c ++ docIdsL cs := by
  simp [docIdsL, docIds, elemsL]

theorem mem_docIdsL_of_mem_idsOf {j : Nat} : ∀ cs : List DNode, j ∈ idsOf cs → j ∈ docIdsL cs
  | [], h => by simp [idsOf] at h
  | c :: cs, h => by
    simp only [idsOf, List.map_cons, List.mem_cons] at h
    rcases h with h1 | h1
    · rw [docIdsL_cons]
      exact List.mem_append_left _ (h1 ▸ rootId_mem_docIds c)
    · rw [docIdsL_cons]
      exact List.mem_append_right _ (mem_docIdsL_of_mem_idsOf cs (by simpa [idsOf] using h1))

/-! Facts about findNode?. -/

mutual

theorem findNode?_rootId (i : Nat) :
    ∀ d : DNode, ∀ n, findNode? i d = some n → rootId n = i
  | .node e cs, n => by
    simp only [findNode?]
    by_cases he : e.eid = i
    · intro h
      simp only [he, if_pos rfl] at h
      cases h
      simp [rootId, rootElem, he]
    · rw [if_neg he]
      exact findNodeL?_rootId i cs n

theorem findNodeL?_rootId (i : Nat) :
    ∀ cs : List DNode, ∀ n, findNodeL? i cs = some n → rootId n = i
  | [], n => by simp [findNodeL?]
  | c :: cs, n => by
    simp only [findNodeL?]
    cases hc : findNode? i c with
    | some r =>
      intro h
      cases h
      exact findNode?_rootId i c n hc
    | none => exact findNodeL?_rootId i cs n

end

mutual

theorem findNode?_isSome_iff (i : Nat) :
    ∀ d : DNode, (findNode? i d).isSome = true ↔ i ∈ docIds d
  | .node e cs => by
    simp only [findNode?, docIds_node]
    by_cases he : e.eid = i
    · simp [he]
    · simp only [if_neg he, List.mem_cons]
      rw [findNodeL?_isSome_iff i cs]
      constructor
      · exact fun h => Or.inr h
      · intro h
        rcases h with h | h
        · exact absurd h.symm he
        · exact h

theorem findNodeL?_isSome_iff (i : Nat) :
    ∀ cs : List DNode, (findNodeL? i cs).isSome = true ↔ i ∈ docIdsL cs
  | [] => by simp [findNodeL?, docIdsL_nil]
  | c :: cs => by
    simp only [findNodeL?, docIdsL_cons, List.mem_append]
    cases hc : findNode? i c with
    | some r =>
      simp only [Option.isSome_some, true_iff]
      exact Or.inl ((findNode?_isSome_iff i c).mp (by simp [hc]))
    | none =>
      rw [findNodeL?_isSome_iff i cs]
      constructor
      · exact fun h => Or.inr h
      · intro h
        rcases h with h | h
        · have := (findNode?_isSome_iff i c).mpr h
          simp [hc] at this
        · exact h

end

theorem findNode?_eq_none_iff (i : Nat) (d : DNode) :
    findNode? i d = none ↔ i ∉ docIds d := by
  rw [← findNode?_isSome_iff i d]
  cases findNode? i d <;> simp

/-! Facts about extract. -/

mutual

theorem extract_eq_findNode (i : Nat) :
    ∀ d : DNode, rootId d ≠ i → (extract i d).2 = findNode? i d
  | .node e cs, h => by
    have he : ¬(e.eid = i) := by simpa [rootId, rootElem] using h
    simp only [extract, findNode?, if_neg he]
    exact extractL_eq_findNodeL i cs

theorem extractL_eq_findNodeL (i : Nat) :
    ∀ cs : List DNode, (extractL i cs).2 = findNodeL? i cs
  | [] => by simp [extractL, findNodeL?]
  | c :: cs => by
    simp only [extractL, findNodeL?]
    by_cases hc : rootId c = i
    · have : findNode? i c = some c := by
        cases c with
        | node e' cs' =>
          have : e'.eid = i := by simpa [rootId, rootElem] using hc
          simp [findNode?, this]
      simp [hc, this]
    · rw [if_neg hc]
      rw [← extract_eq_findNode i c hc]
      cases h2 : (extract i c).2 with
      | some x => simp
      | none => simp [extractL_eq_findNodeL i cs]

end

mutual

theorem extract_none (i : Nat) :
    ∀ d : DNode, (extract i d).2 = none → (extract i d).1 = d
  | .node e cs, h => by
    simp only [extract] at h ⊢
    rw [extractL_none i cs h]

theorem extractL_none (i : Nat) :
    ∀ cs : List DNode, (extractL i cs).2 = none → (extractL i cs).1 = cs
  | [], _ => by simp [extractL]
  | c :: cs, h => by
    simp only [extractL] at h ⊢
    by_cases hc : rootId c = i
    · simp [hc] at h
    · rw [if_neg hc] at h ⊢
      cases h2 : (extract i c).2 with
      | some x => simp [h2] at h
      | none =>
        simp only [h2] at h ⊢
        rw [extractL_none i cs h]

end

mutual

theorem extract_split (i : Nat) :
    ∀ d : DNode, ∀ sub, (extract i d).2 = some sub →
      ∃ A B, elems d = A ++ elems sub ++ B ∧ elems (extract i d).1 = A ++ B
  | .node e cs, sub => by
    simp only [extract, elems_node]
    intro h
    obtain ⟨A, B, h1, h2⟩ := extractL_split i cs sub h
    exact ⟨e :: A, B, by simp [h1], by simp [h2]⟩

theorem extractL_split (i : Nat) :
    ∀ cs : List DNode, ∀ sub, (extractL i cs).2 = some sub →
      ∃ A B, elemsL cs = A ++ elems sub ++ B ∧ elemsL (extractL i cs).1 = A ++ B
  | [], sub => by simp [extractL]
  | c :: cs, sub => by
    simp only [extractL]
    by_cases hc : rootId c = i
    · rw [if_pos hc]
      intro h
      cases h
      exact ⟨[], elemsL cs, by simp [elemsL], by simp⟩
    · rw [if_neg hc]
      cases h2 : (extract i c).2 with
      | some x =>
        simp only
        intro h
        cases h
        obtain ⟨A, B, h1, h3⟩ := extract_split i c sub h2
        refine ⟨A, B ++ elemsL cs, ?_, ?_⟩
        · simp [elemsL, h1]
        · simp [elemsL, h3]
      | none =>
        simp only
        intro h
        obtain ⟨A, B, h1, h3⟩ := extractL_split i cs sub h
        refine ⟨elems c ++ A, B, ?_, ?_⟩
        · simp [elemsL, h1]
        · simp [elemsL, h3]

end

theorem rootId_extract (i : Nat) : ∀ d : DNode, rootId (extract i d).1 = rootId d
  | .node e cs => by simp [extract, rootId, rootElem]

/-! Facts about appendChild. -/

theorem rootId_appendChild (pid : Nat) (x : DNode) :
    ∀ d : DNode, rootId (appendChild pid x d).1 = rootId d
  | .node e cs => by
    simp only [appendChild]
    by_cases he : e.eid = pid <;> simp [he, rootId, rootElem]

theorem idsOf_appendChildL (pid : Nat) (x : DNode) :
    ∀ cs : List DNode, idsOf (appendChildL pid x cs).1 = idsOf cs
  | [] => by simp [appendChildL, idsOf]
  | c :: cs => by
    simp only [appendChildL]
    by_cases h : (appendChild pid x c).2
    · simp [h, idsOf, rootId_appendChild]
    · simp [h, idsOf, idsOf_appendChildL pid x cs]
      have := idsOf_appendChildL pid x cs
      simpa [idsOf] using this

mutual

theorem appendChild_flag (pid : Nat) (x : DNode) :
    ∀ d : DNode, (appendChild pid x d).2 = true ↔ pid ∈ docIds d
  | .node e cs => by
    simp only [appendChild, docIds_node]
    by_cases he : e.eid = pid
    · simp [he]
    · simp only [if_neg he, List.mem_cons]
      rw [appendChildL_flag pid x cs]
      constructor
      · exact fun h => Or.inr h
      · intro h
        rcases h with h | h
        · exact absurd h.symm he
        · exact h

theorem appendChildL_flag (pid : Nat) (x : DNode) :
    ∀ cs : List DNode, (appendChildL pid x cs).2 = true ↔ pid ∈ docIdsL cs
  | [] => by simp [appendChildL, docIdsL_nil]
  | c :: cs => by
    simp only [appendChildL, docIdsL_cons, List.mem_append]
    by_cases h : (appendChild pid x c).2
    · rw [if_pos h]
      simp only [true_iff]
      exact Or.inl ((appendChild_flag pid x c).mp h)
    · rw [if_neg h]
      simp only
      rw [appendChildL_flag pid x cs]
      constructor
      · intro h2
        exact Or.inr h2
      · intro h2
        rcases h2 with h2 | h2
        · exact absurd ((appendChild_flag pid x c).mpr h2) h
        · exact h2

end

mutual

theorem appendChild_split (pid : Nat) (x : DNode) :
    ∀ d : DNode, (appendChild pid x d).2 = true →
      ∃ A B, elems d = A ++ B ∧ elems (appendChild pid x d).1 = A ++ elems x ++ B
  | .node e cs => by
    simp only [appendChild]
    by_cases he : e.eid = pid
    · intro _
      refine ⟨e :: elemsL cs, [], by simp [elems_node], ?_⟩
      simp [he, elems_node, elemsL_append, elemsL]
    · simp only [if_neg he]
      intro h
      obtain ⟨A, B, h1, h2⟩ := appendChildL_split pid x cs h
      exact ⟨e :: A, B, by simp [elems_node, h1], by simp [elems_node, h2]⟩

theorem appendChildL_split (pid : Nat) (x : DNode) :
    ∀ cs : List DNode, (appendChildL pid x cs).2 = true →
      ∃ A B, elemsL cs = A ++ B ∧ elemsL (appendChildL pid x cs).1 = A ++ elems x ++ B
  | [] => by simp [appendChildL]
  | c :: cs => by
    simp only [appendChildL]
    by_cases h : (appendChild pid x c).2
    · intro _
      obtain ⟨A, B, h1, h2⟩ := appendChild_split pid x c (by simp [h])
      refine ⟨A, B ++ elemsL cs, ?_, ?_⟩
      · simp [elemsL, h1]
      · simp [h, elemsL, h2]
    · simp only [h]
      intro h2
      obtain ⟨A, B, h3, h4⟩ := appendChildL_split pid x cs (by simpa using h2)
      refine ⟨elems c ++ A, B, ?_, ?_⟩
      · simp [elemsL, h3]
      · simp [h, elemsL, h4]

end

/-! Facts about sibling insertion. -/

mutual

theorem insertAfterSib_split (sid : Nat) (x : DNode) :
    ∀ d : DNode, (insertAfterSib sid x d).2 = true →
      ∃ A B, elems d = A ++ B ∧ elems (insertAfterSib sid x d).1 = A ++ elems x ++ B
  | .node e cs => by
    simp only [insertAfterSib]
    intro h
    obtain ⟨A, B, h1, h2⟩ := insertAfterSibL_split sid x cs h
    exact ⟨e :: A, B, by simp [elems_node, h1], by simp [elems_node, h2]⟩

theorem insertAfterSibL_split (sid : Nat) (x : DNode) :
    ∀ cs : List DNode, (insertAfterSibL sid x cs).2 = true →
      ∃ A B, elemsL cs = A ++ B ∧ elemsL (insertAfterSibL sid x cs).1 = A ++ elems x ++ B
  | [] => by simp [insertAfterSibL]
  | c :: cs => by
    simp only [insertAfterSibL]
    by_cases hc : rootId c = sid
    · intro _
      refine ⟨elems c, elemsL cs, rfl, ?_⟩
      simp [hc, elemsL]
    · rw [if_neg hc]
      by_cases h : (insertAfterSib sid x c).2
      · intro _
        obtain ⟨A, B, h1, h2⟩ := insertAfterSib_split sid x c (by simp [h])
        refine ⟨A, B ++ elemsL cs, ?_, ?_⟩
        · simp [elemsL, h1]
        · simp [h, elemsL, h2]
      · simp only [h]
        intro h2
        obtain ⟨A, B, h3, h4⟩ := insertAfterSibL_split sid x cs (by simpa using h2)
        refine ⟨elems c ++ A, B, ?_, ?_⟩
        · simp [elemsL, h3]
        · simp [h, elemsL, h4]

end

mutual

theorem insertBeforeSib_split (sid : Nat) (x : DNode) :
    ∀ d : DNode, (insertBeforeSib sid x d).2 = true →
      ∃ A B, elems d = A ++ B ∧ elems (insertBeforeSib sid x d).1 = A ++ elems x ++ B
  | .node e cs => by
    simp only [insertBeforeSib]
    intro h
    obtain ⟨A, B, h1, h2⟩ := insertBeforeSibL_split sid x cs h
    exact ⟨e :: A, B, by simp [elems_node, h1], by simp [elems_node, h2]⟩

theorem insertBeforeSibL_split (sid : Nat) (x : DNode) :
    ∀ cs : List DNode, (insertBeforeSibL sid x cs).2 = true →
      ∃ A B, elemsL cs = A ++ B ∧ elemsL (insertBeforeSibL sid x cs).1 = A ++ elems x ++ B
  | [] => by simp [insertBeforeSibL]
  | c :: cs => by
    simp only [insertBeforeSibL]
    by_cases hc : rootId c = sid
    · intro _
      refine ⟨[], elems c ++ elemsL cs, by simp [elemsL], ?_⟩
      simp [hc, elemsL]
    · rw [if_neg hc]
      by_cases h : (insertBeforeSib sid x c).2
      · intro _
        obtain ⟨A, B, h1, h2⟩ := insertBeforeSib_split sid x c (by simp [h])
        refine ⟨A, B ++ elemsL cs, ?_, ?_⟩
        · simp [elemsL, h1]
        · simp [h, elemsL, h2]
      · simp only [h]
        intro h2
        obtain ⟨A, B, h3, h4⟩ := insertBeforeSibL_split sid x cs (by simpa using h2)
        refine ⟨elems c ++ A, B, ?_, ?_⟩
        · simp [elemsL, h3]
        · simp [h, elemsL, h4]

end

theorem elems_prependToRoot (x : DNode) :
    ∀ d : DNode, elems (prependToRoot x d) = rootElem d :: (elems x ++ elemsL (childrenOf d))
  | .node e cs => by simp [prependToRoot, elems_node, elemsL, rootElem, childrenOf]

/-! Facts about parentOf?. -/

mutual

theorem parentOf?_eq_none (j : Nat) :
    ∀ d : DNode, j ∉ docIds d → parentOf? j d = none
  | .node e cs, h => by
    rw [docIds_node] at h
    have h1 : j ∉ docIdsL cs := fun hm => h (List.mem_cons_of_mem _ hm)
    have h2 : ¬((idsOf cs).contains j = true) := by
      rw [contains_iff_mem]
      exact fun hm => h1 (mem_docIdsL_of_mem_idsOf cs hm)
    simp only [parentOf?]
    rw [if_neg h2]
    exact parentOfL?_eq_none j cs h1

theorem parentOfL?_eq_none (j : Nat) :
    ∀ cs : List DNode, j ∉ docIdsL cs → parentOfL? j cs = none
  | [], _ => by simp [parentOfL?]
  | c :: cs, h => by
    rw [docIdsL_cons] at h
    have hc := parentOf?_eq_none j c (fun hm => h (List.mem_append_left _ hm))
    simp only [parentOfL?, hc]
    exact parentOfL?_eq_none j cs (fun hm => h (List.mem_append_right _ hm))

end

mutual

theorem parentOf?_isSome_of_mem (j : Nat) :
    ∀ d : DNode, j ∈ docIds d → j ≠ rootId d → (parentOf? j d).isSome = true
  | .node e cs, hm, hne => by
    rw [docIds_node] at hm
    have hne' : j ≠ e.eid := by simpa [rootId, rootElem] using hne
    have hm' : j ∈ docIdsL cs := by
      rcases List.mem_cons.mp hm with h | h
      · exact absurd h hne'
      · exact h
    simp only [parentOf?]
    by_cases hc : (idsOf cs).contains j
    · rw [if_pos hc]
      simp
    · rw [if_neg hc]
      have hcm : j ∉ idsOf cs := fun hmm => hc ((contains_iff_mem _ _).mpr hmm)
      exact parentOfL?_isSome_of_mem j cs hm' hcm

theorem parentOfL?_isSome_of_mem (j : Nat) :
    ∀ cs : List DNode, j ∈ docIdsL cs → j ∉ idsOf cs → (parentOfL? j cs).isSome = true
  | [], hm, _ => by simp [docIdsL_nil] at hm
  | c :: cs, hm, hno => by
    rw [docIdsL_cons] at hm
    simp only [idsOf, List.map_cons, List.mem_cons, not_or] at hno
    simp only [parentOfL?]
    cases hq : parentOf? j c with
    | some q => simp
    | none =>
      rcases List.mem_append.mp hm with h | h
      · have := parentOf?_isSome_of_mem j c h hno.1
        rw [hq] at this
        simp at this
      · exact parentOfL?_isSome_of_mem j cs h (by simpa [idsOf] using hno.2)

end

mutual

theorem parentOf?_some_mem (j : Nat) :
    ∀ d : DNode, ∀ q, parentOf? j d = some q → j ∈ docIdsL (childrenOf d)
  | .node e cs, q, h => by
    simp only [parentOf?] at h
    simp only [childrenOf]
    by_cases hc : (idsOf cs).contains j
    · exact mem_docIdsL_of_mem_idsOf cs ((contains_iff_mem _ _).mp hc)
    · rw [if_neg hc] at h
      exact parentOfL?_some_mem j cs q h

theorem parentOfL?_some_mem (j : Nat) :
    ∀ cs : List DNode, ∀ q, parentOfL? j cs = some q → j ∈ docIdsL cs
  | [], q, h => by simp [parentOfL?] at h
  | c :: cs, q, h => by
    simp only [parentOfL?] at h
    rw [docIdsL_cons]
    cases hq : parentOf? j c with
    | some p =>
      have hmem := parentOf?_some_mem j c p hq
      have h2 : j ∈ docIds c := by
        cases c with
        | node e' cs' =>
          rw [docIds_node]
          exact List.mem_cons_of_mem _ (by simpa [childrenOf] using hmem)
      exact List.mem_append_left _ h2
    | none =>
      rw [hq] at h
      simp only at h
      exact List.mem_append_right _ (parentOfL?_some_mem j cs q h)

end

theorem parentOf?_rootId_self (x : DNode) (h : (docIds x).Nodup) :
    parentOf? (rootId x) x = none := by
  cases hq : parentOf? (rootId x) x with
  | none => rfl
  | some q =>
    have hm := parentOf?_some_mem (rootId x) x q hq
    cases x with
    | node e cs =>
      rw [docIds_node] at h
      have hnm : e.eid ∉ docIdsL cs := (List.nodup_cons.mp h).1
      exact absurd (by simpa [childrenOf, rootId, rootElem] using hm) hnm

mutual

theorem parentOf?_appendChild (pid : Nat) (x : DNode) :
    ∀ d : DNode, (appendChild pid x d).2 = true → rootId x ∉ docIds d →
      parentOf? (rootId x) (appendChild pid x d).1 = some pid
  | .node e cs, hf, hnm => by
    simp only [appendChild] at hf ⊢
    by_cases he : e.eid = pid
    · rw [if_pos he]
      simp only
      have hcm : (idsOf (cs ++ [x])).contains (rootId x) = true := by
        rw [contains_iff_mem]
        simp [idsOf]
      simp only [parentOf?]
      rw [if_pos hcm, he]
    · rw [if_neg he] at hf ⊢
      simp only at hf ⊢
      rw [docIds_node] at hnm
      have h1 : rootId x ∉ docIdsL cs := fun hm => hnm (List.mem_cons_of_mem _ hm)
      simp only [parentOf?]
      have h2 : ¬((idsOf (appendChildL pid x cs).1).contains (rootId x) = true) := by
        rw [contains_iff_mem, idsOf_appendChildL pid x cs]
        exact fun hm => h1 (mem_docIdsL_of_mem_idsOf cs hm)
      rw [if_neg h2]
      exact parentOfL?_appendChildL pid x cs hf h1

theorem parentOfL?_appendChildL (pid : Nat) (x : DNode) :
    ∀ cs : List DNode, (appendChildL pid x cs).2 = true → rootId x ∉ docIdsL cs →
      parentOfL? (rootId x) (appendChildL pid x cs).1 = some pid
  | [], hf, _ => by simp [appendChildL] at hf
  | c :: cs, hf, hnm => by
    rw [docIdsL_cons] at hnm
    have hnc : rootId x ∉ docIds c := fun hm => hnm (List.mem_append_left _ hm)
    have hncs : rootId x ∉ docIdsL cs := fun hm => hnm (List.mem_append_right _ hm)
    simp only [appendChildL] at hf ⊢
    by_cases h : (appendChild pid x c).2
    · rw [if_pos h]
      simp only [parentOfL?]
      rw [parentOf?_appendChild pid x c h hnc]
    · rw [if_neg h] at hf ⊢
      simp only at hf ⊢
      simp only [parentOfL?]
      rw [parentOf?_eq_none (rootId x) c hnc]
      exact parentOfL?_appendChildL pid x cs hf hncs

end

/-! Facts about moveIntoById. -/

theorem elems_moveInto_perm (pid bid : Nat) (d : DNode) :
    (elems (moveIntoById pid bid d)).Perm (elems d) := by
  unfold moveIntoById
  cases h2 : (extract bid d).2 with
  | none => simp [h2]
  | some sub =>
    simp only [h2]
    by_cases ha : (appendChild pid sub (extract bid d).1).2
    · rw [if_pos ha]
      obtain ⟨A, B, h3, h4⟩ := extract_split bid d sub h2
      obtain ⟨C, D, h5, h6⟩ := appendChild_split pid sub (extract bid d).1 ha
      rw [h6, h3]
      have hcd : C ++ D = A ++ B := by rw [← h5, h4]
      have p1 : ((C ++ elems sub) ++ D).Perm ((elems sub ++ C) ++ D) :=
        (List.perm_append_comm).append_right D
      have p2 : ((elems sub ++ A) ++ B).Perm ((A ++ elems sub) ++ B) :=
        (List.perm_append_comm).append_right B
      have key : (elems sub ++ C) ++ D = (elems sub ++ A) ++ B := by
        rw [List.append_assoc, hcd, ← List.append_assoc]
      rw [key] at p1
      exact p1.trans p2
    · rw [if_neg ha]

theorem collectIds_moveInto (p : Elem → Bool) (pid bid : Nat) (d : DNode)
    (hsub : ∀ sub, (extract bid d).2 = some sub → (elems sub).filter p = []) :
    collectIds p (moveIntoById pid bid d) = collectIds p d := by
  unfold moveIntoById
  cases h2 : (extract bid d).2 with
  | none => simp [h2]
  | some sub =>
    simp only [h2]
    by_cases ha : (appendChild pid sub (extract bid d).1).2
    · rw [if_pos ha]
      obtain ⟨A, B, h3, h4⟩ := extract_split bid d sub h2
      obtain ⟨C, D, h5, h6⟩ := appendChild_split pid sub (extract bid d).1 ha
      have hs := hsub sub h2
      have hcd : C ++ D = A ++ B := by rw [← h5, h4]
      have hfilt : C.filter p ++ D.filter p = A.filter p ++ B.filter p := by
        have hmap := congrArg (List.filter p) hcd
        simpa [List.filter_append] using hmap
      simp only [collectIds, h6, h3, List.filter_append, hs]
      simp [hfilt]
    · rw [if_neg ha]

theorem docIds_moveInto_perm (pid bid : Nat) (d : DNode) :
    (docIds (moveIntoById pid bid d)).Perm (docIds d) :=
  (elems_moveInto_perm pid bid d).map Elem.eid

theorem collectIds_perm_of_elems_perm (p : Elem → Bool) (d d' : DNode)
    (h : (elems d').Perm (elems d)) :
    (collectIds p d').Perm (collectIds p d) :=
  (h.filter p).map Elem.eid

theorem findId?_of_collect_singleton (p : Elem → Bool) (d : DNode) (j : Nat)
    (h : collectIds p d = [j]) : findId? p d = some j := by
  simp [findId?, h]

/-! Success conditions of the sibling insertions. -/

mutual

theorem insertAfterSib_of_parent (sid : Nat) (x : DNode) :
    ∀ d : DNode, ∀ q, parentOf? sid d = some q → (insertAfterSib sid x d).2 = true
  | .node e cs, q, h => by
    simp only [parentOf?] at h
    simp only [insertAfterSib]
    by_cases hc : (idsOf cs).contains sid
    · exact insertAfterSibL_of_parentL sid x cs q (Or.inl ((contains_iff_mem _ _).mp hc))
    · rw [if_neg hc] at h
      exact insertAfterSibL_of_parentL sid x cs q (Or.inr h)

theorem insertAfterSibL_of_parentL (sid : Nat) (x : DNode) :
    ∀ cs : List DNode, ∀ q, (sid ∈ idsOf cs ∨ parentOfL? sid cs = some q) →
      (insertAfterSibL sid x cs).2 = true
  | [], q, h => by
    rcases h with h | h
    · simp [idsOf] at h
    · simp [parentOfL?] at h
  | c :: cs, q, h => by
    simp only [insertAfterSibL]
    by_cases hc : rootId c = sid
    · rw [if_pos hc]
    · rw [if_neg hc]
      by_cases hflag : (insertAfterSib sid x c).2
      · rw [if_pos hflag]
      · rw [if_neg hflag]
        simp only
        rcases h with h | h
        · simp only [idsOf, List.map_cons, List.mem_cons] at h
          rcases h with h | h
          · exact absurd h.symm hc
          · exact insertAfterSibL_of_parentL sid x cs q (Or.inl (by simpa [idsOf] using h))
        · simp only [parentOfL?] at h
          cases hq : parentOf? sid c with
          | some p => exact absurd (insertAfterSib_of_parent sid x c p hq) hflag
          | none =>
            rw [hq] at h
            simp only at h
            exact insertAfterSibL_of_parentL sid x cs q (Or.inr h)

end

mutual

theorem insertBeforeSib_of_parent (sid : Nat) (x : DNode) :
    ∀ d : DNode, ∀ q, parentOf? sid d = some q → (insertBeforeSib sid x d).2 = true
  | .node e cs, q, h => by
    simp only [parentOf?] at h
    simp only [insertBeforeSib]
    by_cases hc : (idsOf cs).contains sid
    · exact insertBeforeSibL_of_parentL sid x cs q (Or.inl ((contains_iff_mem _ _).mp hc))
    · rw [if_neg hc] at h
      exact insertBeforeSibL_of_parentL sid x cs q (Or.inr h)

theorem insertBeforeSibL_of_parentL (sid : Nat) (x : DNode) :
    ∀ cs : List DNode, ∀ q, (sid ∈ idsOf cs ∨ parentOfL? sid cs = some q) →
      (insertBeforeSibL sid x cs).2 = true
  | [], q, h => by
    rcases h with h | h
    · simp [idsOf] at h
    · simp [parentOfL?] at h
  | c :: cs, q, h => by
    simp only [insertBeforeSibL]
    by_cases hc : rootId c = sid
    · rw [if_pos hc]
    · rw [if_neg hc]
      by_cases hflag : (insertBeforeSib sid x c).2
      · rw [if_pos hflag]
      · rw [if_neg hflag]
        simp only
        rcases h with h | h
        · simp only [idsOf, List.map_cons, List.mem_cons] at h
          rcases h with h | h
          · exact absurd h.symm hc
          · exact insertBeforeSibL_of_parentL sid x cs q (Or.inl (by simpa [idsOf] using h))
        · simp only [parentOfL?] at h
          cases hq : parentOf? sid c with
          | some p => exact absurd (insertBeforeSib_of_parent sid x c p hq) hflag
          | none =>
            rw [hq] at h
            simp only at h
            exact insertBeforeSibL_of_parentL sid x cs q (Or.inr h)

end

mutual

theorem insertAfterSib_true_mem (sid : Nat) (x : DNode) :
    ∀ d : DNode, (insertAfterSib sid x d).2 = true → sid ∈ docIds d
  | .node e cs, h => by
    simp only [insertAfterSib] at h
    rw [docIds_node]
    exact List.mem_cons_of_mem _ (insertAfterSibL_true_mem sid x cs h)

theorem insertAfterSibL_true_mem (sid : Nat) (x : DNode) :
    ∀ cs : List DNode, (insertAfterSibL sid x cs).2 = true → sid ∈ docIdsL cs
  | [], h => by simp [insertAfterSibL] at h
  | c :: cs, h => by
    rw [docIdsL_cons]
    simp only [insertAfterSibL] at h
    by_cases hc : rootId c = sid
    · exact List.mem_append_left _ (hc ▸ rootId_mem_docIds c)
    · rw [if_neg hc] at h
      by_cases hflag : (insertAfterSib sid x c).2
      · exact List.mem_append_left _ (insertAfterSib_true_mem sid x c hflag)
      · rw [if_neg hflag] at h
        simp only at h
        exact List.mem_append_right _ (insertAfterSibL_true_mem sid x cs h)

end

mutual

theorem insertBeforeSib_true_mem (sid : Nat) (x : DNode) :
    ∀ d : DNode, (insertBeforeSib sid x d).2 = true → sid ∈ docIds d
  | .node e cs, h => by
    simp only [insertBeforeSib] at h
    rw [docIds_node]
    exact List.mem_cons_of_mem _ (insertBeforeSibL_true_mem sid x cs h)

theorem insertBeforeSibL_true_mem (sid : Nat) (x : DNode) :
    ∀ cs : List DNode, (insertBeforeSibL sid x cs).2 = true → sid ∈ docIdsL cs
  | [], h => by simp [insertBeforeSibL] at h
  | c :: cs, h => by
    rw [docIdsL_cons]
    simp only [insertBeforeSibL] at h
    by_cases hc : rootId c = sid
    · exact List.mem_append_left _ (hc ▸ rootId_mem_docIds c)
    · rw [if_neg hc] at h
      by_cases hflag : (insertBeforeSib sid x c).2
      · exact List.mem_append_left _ (insertBeforeSib_true_mem sid x c hflag)
      · rw [if_neg hflag] at h
        simp only at h
        exact List.mem_append_right _ (insertBeforeSibL_true_mem sid x cs h)

end

mutual

theorem insertAfterSib_false (sid : Nat) (x : DNode) :
    ∀ d : DNode, (insertAfterSib sid x d).2 = false → (insertAfterSib sid x d).1 = d
  | .node e cs, h => by
    simp only [insertAfterSib] at h ⊢
    rw [insertAfterSibL_false sid x cs h]

theorem insertAfterSibL_false (sid : Nat) (x : DNode) :
    ∀ cs : List DNode, (insertAfterSibL sid x cs).2 = false → (insertAfterSibL sid x cs).1 = cs
  | [], _ => by simp [insertAfterSibL]
  | c :: cs, h => by
    simp only [insertAfterSibL] at h ⊢
    by_cases hc : rootId c = sid
    · rw [if_pos hc] at h
      simp at h
    · rw [if_neg hc] at h ⊢
      by_cases hflag : (insertAfterSib sid x c).2
      · rw [if_pos hflag] at h
        simp at h
      · rw [if_neg hflag] at h ⊢
        simp only at h ⊢
        rw [insertAfterSibL_false sid x cs h]

end

mutual

theorem insertBeforeSib_false (sid : Nat) (x : DNode) :
    ∀ d : DNode, (insertBeforeSib sid x d).2 = false → (insertBeforeSib sid x d).1 = d
  | .node e cs, h => by
    simp only [insertBeforeSib] at h ⊢
    rw [insertBeforeSibL_false sid x cs h]

theorem insertBeforeSibL_false (sid : Nat) (x : DNode) :
    ∀ cs : List DNode, (insertBeforeSibL sid x cs).2 = false → (insertBeforeSibL sid x cs).1 = cs
  | [], _ => by simp [insertBeforeSibL]
  | c :: cs, h => by
    simp only [insertBeforeSibL] at h ⊢
    by_cases hc : rootId c = sid
    · rw [if_pos hc] at h
      simp at h
    · rw [if_neg hc] at h ⊢
      by_cases hflag : (insertBeforeSib sid x c).2
      · rw [if_pos hflag] at h
        simp at h
      · rw [if_neg hflag] at h ⊢
        simp only at h ⊢
        rw [insertBeforeSibL_false sid x cs h]

end

/-! Stability of findNode? under sibling insertion outside the target
subtree, and under prepending to the root. -/

mutual

theorem findNode?_insertAfter (sid : Nat) (x : DNode) (j : Nat) (hx : j ∉ docIds x) :
    ∀ d : DNode, (∀ n, findNode? j d = some n → sid ∉ docIds n) →
      findNode? j ((insertAfterSib sid x d).1) = findNode? j d
  | .node e cs, hcond => by
    simp only [insertAfterSib, findNode?]
    by_cases hj : e.eid = j
    · rw [if_pos hj, if_pos hj]
      have hs : sid ∉ docIds (DNode.node e cs) := by
        apply hcond
        simp [findNode?, hj]
      have hflag : ¬((insertAfterSibL sid x cs).2 = true) := by
        intro hf
        apply hs
        rw [docIds_node]
        exact List.mem_cons_of_mem _ (insertAfterSibL_true_mem sid x cs hf)
      rw [insertAfterSibL_false sid x cs (by simpa using hflag)]
    · rw [if_neg hj, if_neg hj]
      apply findNodeL?_insertAfterL sid x j hx cs
      intro n hn
      apply hcond
      rw [findNode?, if_neg hj]
      exact hn

theorem findNodeL?_insertAfterL (sid : Nat) (x : DNode) (j : Nat) (hx : j ∉ docIds x) :
    ∀ cs : List DNode, (∀ n, findNodeL? j cs = some n → sid ∉ docIds n) →
      findNodeL? j ((insertAfterSibL sid x cs).1) = findNodeL? j cs
  | [], _ => by simp [insertAfterSibL]
  | c :: cs, hcond => by
    simp only [insertAfterSibL]
    by_cases hc : rootId c = sid
    · rw [if_pos hc]
      simp only [findNodeL?]
      cases hfc : findNode? j c with
      | some n => simp
      | none =>
        rw [(findNode?_eq_none_iff j x).mpr hx]
    · rw [if_neg hc]
      by_cases hflag : (insertAfterSib sid x c).2
      · rw [if_pos hflag]
        simp only [findNodeL?]
        have hrec : findNode? j ((insertAfterSib sid x c).1) = findNode? j c := by
          apply findNode?_insertAfter sid x j hx c
          intro n hn
          apply hcond
          rw [findNodeL?, hn]
        rw [hrec]
      · rw [if_neg hflag]
        simp only [findNodeL?]
        cases hfc : findNode? j c with
        | some n => simp
        | none =>
          apply findNodeL?_insertAfterL sid x j hx cs
          intro n hn
          apply hcond
          rw [findNodeL?, hfc]
          exact hn

end

mutual

theorem findNode?_insertBefore (sid : Nat) (x : DNode) (j : Nat) (hx : j ∉ docIds x) :
    ∀ d : DNode, (∀ n, findNode? j d = some n → sid ∉ docIds n) →
      findNode? j ((insertBeforeSib sid x d).1) = findNode? j d
  | .node e cs, hcond => by
    simp only [insertBeforeSib, findNode?]
    by_cases hj : e.eid = j
    · rw [if_pos hj, if_pos hj]
      have hs : sid ∉ docIds (DNode.node e cs) := by
        apply hcond
        simp [findNode?, hj]
      have hflag : ¬((insertBeforeSibL sid x cs).2 = true) := by
        intro hf
        apply hs
        rw [docIds_node]
        exact List.mem_cons_of_mem _ (insertBeforeSibL_true_mem sid x cs hf)
      rw [insertBeforeSibL_false sid x cs (by simpa using hflag)]
    · rw [if_neg hj, if_neg hj]
      apply findNodeL?_insertBeforeL sid x j hx cs
      intro n hn
      apply hcond
      rw [findNode?, if_neg hj]
      exact hn

theorem findNodeL?_insertBeforeL (sid : Nat) (x : DNode) (j : Nat) (hx : j ∉ docIds x) :
    ∀ cs : List DNode, (∀ n, findNodeL? j cs = some n → sid ∉ docIds n) →
      findNodeL? j ((insertBeforeSibL sid x cs).1) = findNodeL? j cs
  | [], _ => by simp [insertBeforeSibL]
  | c :: cs, hcond => by
    simp only [insertBeforeSibL]
    by_cases hc : rootId c = sid
    · rw [if_pos hc]
      simp only [findNodeL?]
      rw [(findNode?_eq_none_iff j x).mpr hx]
    · rw [if_neg hc]
      by_cases hflag : (insertBeforeSib sid x c).2
      · rw [if_pos hflag]
        simp only [findNodeL?]
        have hrec : findNode? j ((insertBeforeSib sid x c).1) = findNode? j c := by
          apply findNode?_insertBefore sid x j hx c
          intro n hn
          apply hcond
          rw [findNodeL?, hn]
        rw [hrec]
      · rw [if_neg hflag]
        simp only [findNodeL?]
        cases hfc : findNode? j c with
        | some n => simp
        | none =>
          apply findNodeL?_insertBeforeL sid x j hx cs
          intro n hn
          apply hcond
          rw [findNodeL?, hfc]
          exact hn

end

theorem findNode?_prependToRoot (j : Nat) (x : DNode) (hx : j ∉ docIds x) :
    ∀ d : DNode, j ≠ rootId d → findNode? j (prependToRoot x d) = findNode? j d
  | .node e cs, hne => by
    have he : ¬(e.eid = j) := fun h => hne (by simp [rootId, rootElem, h])
    simp only [prependToRoot, findNode?, if_neg he, findNodeL?]
    rw [(findNode?_eq_none_iff j x).mpr hx]

/-! The fresh identity is really fresh. -/

theorem le_foldr_max (i : Nat) : ∀ l : List Nat, i ∈ l → i ≤ l.foldr Nat.max 0
  | a :: l, h => by
    rcases List.mem_cons.mp h with h1 | h1
    · rw [List.foldr_cons, h1]
      exact Nat.le_max_left _ _
    · have ih := le_foldr_max i l h1
      rw [List.foldr_cons]
      exact le_trans ih (Nat.le_max_right _ _)

theorem freshId_not_mem (d : DNode) : freshId d ∉ docIds d := by
  intro h
  have h2 : maxId d + 1 ≤ maxId d := le_foldr_max (freshId d) (docIds d) h
  omega

/-! Derived facts about findId?. -/

theorem mem_elems_of_findId? (p : Elem → Bool) (d : DNode) (j : Nat)
    (h : findId? p d = some j) : ∃ e, e ∈ elems d ∧ e.eid = j ∧ p e = true := by
  simp only [findId?, collectIds] at h
  cases hl : (elems d).filter p with
  | nil => rw [hl] at h; simp at h
  | cons e rest =>
    rw [hl] at h
    simp only [List.map_cons, List.head?_cons, Option.some.injEq] at h
    have he : e ∈ (elems d).filter p := by
      rw [hl]
      exact List.mem_cons_self e rest
    have hm := List.mem_filter.mp he
    exact ⟨e, hm.1, h, hm.2⟩

theorem findId?_eq_none_iff (p : Elem → Bool) (d : DNode) :
    findId? p d = none ↔ (elems d).filter p = [] := by
  simp only [findId?, collectIds]
  cases hl : (elems d).filter p <;> simp

theorem findId?_mem_docIds (p : Elem → Bool) (d : DNode) (j : Nat)
    (h : findId? p d = some j) : j ∈ docIds d := by
  obtain ⟨e, he, heid, _⟩ := mem_elems_of_findId? p d j h
  exact heid ▸ List.mem_map_of_mem Elem.eid he

theorem elem_eq_of_eid {d : DNode} (hnodup : (docIds d).Nodup) {e1 e2 : Elem}
    (h1 : e1 ∈ elems d) (h2 : e2 ∈ elems d) (heq : e1.eid = e2.eid) : e1 = e2 := by
  have hmap : ((elems d).map Elem.eid).Nodup := hnodup
  exact List.inj_on_of_nodup_map hmap h1 h2 heq

/-! Splits of the identity lists under the structural operations. -/

theorem extract_docIds (i : Nat) (d sub : DNode) (h2 : (extract i d).2 = some sub) :
    ∃ A B, docIds d = A ++ docIds sub ++ B ∧ docIds (extract i d).1 = A ++ B := by
  obtain ⟨A, B, h3, h4⟩ := extract_split i d sub h2
  exact ⟨A.map Elem.eid, B.map Elem.eid, by simp [docIds, h3], by simp [docIds, h4]⟩

theorem appendChild_docIds (pid : Nat) (x d : DNode) (h : (appendChild pid x d).2 = true) :
    ∃ A B, docIds d = A ++ B ∧ docIds (appendChild pid x d).1 = A ++ docIds x ++ B := by
  obtain ⟨A, B, h3, h4⟩ := appendChild_split pid x d h
  exact ⟨A.map Elem.eid, B.map Elem.eid, by simp [docIds, h3], by simp [docIds, h4]⟩

theorem insertAfterSib_docIds (sid : Nat) (x d : DNode) (h : (insertAfterSib sid x d).2 = true) :
    ∃ A B, docIds d = A ++ B ∧ docIds (insertAfterSib sid x d).1 = A ++ docIds x ++ B := by
  obtain ⟨A, B, h3, h4⟩ := insertAfterSib_split sid x d h
  exact ⟨A.map Elem.eid, B.map Elem.eid, by simp [docIds, h3], by simp [docIds, h4]⟩

theorem insertBeforeSib_docIds (sid : Nat) (x d : DNode) (h : (insertBeforeSib sid x d).2 = true) :
    ∃ A B, docIds d = A ++ B ∧ docIds (insertBeforeSib sid x d).1 = A ++ docIds x ++ B := by
  obtain ⟨A, B, h3, h4⟩ := insertBeforeSib_split sid x d h
  exact ⟨A.map Elem.eid, B.map Elem.eid, by simp [docIds, h3], by simp [docIds, h4]⟩

/-! Parent of a node after it is moved. -/

theorem parentOf?_moveInto (pid bid : Nat) (d : DNode)
    (hnodup : (docIds d).Nodup) (hbid : bid ∈ docIds d) (hbroot : bid ≠ rootId d)
    (hpid : pid ∈ docIds d)
    (hpidsub : ∀ sub, (extract bid d).2 = some sub → pid ∉ docIds sub) :
    parentOf? bid (moveIntoById pid bid d) = some pid := by
  have hfind : (extract bid d).2 = findNode? bid d :=
    extract_eq_findNode bid d (fun h => hbroot h.symm)
  have hsome : (findNode? bid d).isSome = true := (findNode?_isSome_iff bid d).mpr hbid
  cases hsub : findNode? bid d with
  | none =>
    rw [hsub] at hsome
    simp at hsome
  | some sub =>
    have h2 : (extract bid d).2 = some sub := by rw [hfind, hsub]
    have hrootsub : rootId sub = bid := findNode?_rootId bid d sub hsub
    obtain ⟨A, B, hA, hB⟩ := extract_docIds bid d sub h2
    have hbs : bid ∈ docIds sub := hrootsub ▸ rootId_mem_docIds sub
    have hnodup2 : ((A ++ docIds sub) ++ B).Nodup := by
      have := hA ▸ hnodup
      simpa [List.append_assoc] using this
    have hASn := (List.nodup_append.mp hnodup2).1
    have hdisj1 := (List.nodup_append.mp hnodup2).2.2
    have hdisj2 := (List.nodup_append.mp hASn).2.2
    have hbnotA : bid ∉ A := fun hmem => hdisj2 hmem hbs
    have hbnotB : bid ∉ B := fun hmem => hdisj1 (List.mem_append_right A hbs) hmem
    have hbnotAB : bid ∉ A ++ B := by
      rw [List.mem_append]
      rintro (h | h)
      · exact hbnotA h
      · exact hbnotB h
    have hpidAB : pid ∈ A ++ B := by
      have hp : pid ∈ A ++ docIds sub ++ B := hA ▸ hpid
      rw [List.mem_append, List.mem_append] at hp
      rcases hp with (h | h) | h
      · exact List.mem_append_left _ h
      · exact absurd h (hpidsub sub h2)
      · exact List.mem_append_right _ h
    have hflag : (appendChild pid sub (extract bid d).1).2 = true := by
      rw [appendChild_flag, hB]
      exact hpidAB
    have hmain := parentOf?_appendChild pid sub (extract bid d).1 hflag
      (by rw [hrootsub, hB]; exact hbnotAB)
    rw [hrootsub] at hmain
    unfold moveIntoById
    simp only [h2, if_pos hflag]
    exact hmain

/-! Roots are preserved by the structural operations. -/

theorem rootId_insertAfterSib (sid : Nat) (x : DNode) :
    ∀ d : DNode, rootId (insertAfterSib sid x d).1 = rootId d
  | .node e cs => by simp [insertAfterSib, rootId, rootElem]

theorem rootId_insertBeforeSib (sid : Nat) (x : DNode) :
    ∀ d : DNode, rootId (insertBeforeSib sid x d).1 = rootId d
  | .node e cs => by simp [insertBeforeSib, rootId, rootElem]

theorem rootId_prependToRoot (x : DNode) :
    ∀ d : DNode, rootId (prependToRoot x d) = rootId d
  | .node e cs => by simp [prependToRoot, rootId, rootElem]

theorem rootId_moveIntoById (pid bid : Nat) (d : DNode) :
    rootId (moveIntoById pid bid d) = rootId d := by
  unfold moveIntoById
  cases h2 : (extract bid d).2 with
  | none => simp [h2]
  | some sub =>
    simp only [h2]
    by_cases ha : (appendChild pid sub (extract bid d).1).2
    · rw [if_pos ha, rootId_appendChild, rootId_extract]
    · rw [if_neg ha]

/-! The parent reported by parentOf? is an element of the document. -/

mutual

theorem parentOf?_q_mem (j : Nat) : ∀ d : DNode, ∀ q, parentOf? j d = some q → q ∈ docIds d
  | .node e cs, q, h => by
    simp only [parentOf?] at h
    rw [docIds_node]
    by_cases hc : (idsOf cs).contains j
    · rw [if_pos hc] at h
      cases h
      exact List.mem_cons_self _ _
    · rw [if_neg hc] at h
      exact List.mem_cons_of_mem _ (parentOfL?_q_mem j cs q h)

theorem parentOfL?_q_mem (j : Nat) : ∀ cs : List DNode, ∀ q, parentOfL? j cs = some q → q ∈ docIdsL cs
  | [], q, h => by simp [parentOfL?] at h
  | c :: cs, q, h => by
    simp only [parentOfL?] at h
    rw [docIdsL_cons]
    cases hq : parentOf? j c with
    | some p =>
      rw [hq] at h
      simp only [Option.some.injEq] at h
      exact List.mem_append_left _ (parentOf?_q_mem j c q (by rw [hq, h]))
    | none =>
      rw [hq] at h
      simp only at h
      exact List.mem_append_right _ (parentOfL?_q_mem j cs q h)

end

/-! Stability of parentOf? under insertion of a subtree not holding j. -/

theorem contains_eq_decide (l : List Nat) (a : Nat) : l.contains a = decide (a ∈ l) := by
  simp [List.contains, List.elem_eq_mem]

theorem mem_idsOf_insertAfterSibL (sid : Nat) (x : DNode) (j : Nat) (hj : j ≠ rootId x) :
    ∀ cs : List DNode, j ∈ idsOf (insertAfterSibL sid x cs).1 ↔ j ∈ idsOf cs
  | [] => by simp [insertAfterSibL]
  | c :: cs => by
    simp only [insertAfterSibL]
    by_cases hc : rootId c = sid
    · rw [if_pos hc]
      simp only [idsOf, List.map_cons, List.mem_cons]
      constructor
      · rintro (h | h | h)
        · exact Or.inl h
        · exact absurd h hj
        · exact Or.inr h
      · rintro (h | h)
        · exact Or.inl h
        · exact Or.inr (Or.inr h)
    · rw [if_neg hc]
      by_cases hflag : (insertAfterSib sid x c).2
      · rw [if_pos hflag]
        simp [idsOf, rootId_insertAfterSib]
      · rw [if_neg hflag]
        simp only [idsOf, List.map_cons, List.mem_cons]
        have ih := mem_idsOf_insertAfterSibL sid x j hj cs
        simp only [idsOf] at ih
        rw [ih]

theorem mem_idsOf_insertBeforeSibL (sid : Nat) (x : DNode) (j : Nat) (hj : j ≠ rootId x) :
    ∀ cs : List DNode, j ∈ idsOf (insertBeforeSibL sid x cs).1 ↔ j ∈ idsOf cs
  | [] => by simp [insertBeforeSibL]
  | c :: cs => by
    simp only [insertBeforeSibL]
    by_cases hc : rootId c = sid
    · rw [if_pos hc]
      simp only [idsOf, List.map_cons, List.mem_cons]
      constructor
      · rintro (h | h | h)
        · exact absurd h hj
        · exact Or.inl h
        · exact Or.inr h
      · rintro (h | h)
        · exact Or.inr (Or.inl h)
        · exact Or.inr (Or.inr h)
    · rw [if_neg hc]
      by_cases hflag : (insertBeforeSib sid x c).2
      · rw [if_pos hflag]
        simp [idsOf, rootId_insertBeforeSib]
      · rw [if_neg hflag]
        simp only [idsOf, List.map_cons, List.mem_cons]
        have ih := mem_idsOf_insertBeforeSibL sid x j hj cs
        simp only [idsOf] at ih
        rw [ih]

mutual

theorem parentOf?_insertAfter (sid : Nat) (x : DNode) (j : Nat) (hx : j ∉ docIds x) :
    ∀ d : DNode, parentOf? j (insertAfterSib sid x d).1 = parentOf? j d
  | .node e cs => by
    have hj : j ≠ rootId x := fun h => hx (h ▸ rootId_mem_docIds x)
    simp only [insertAfterSib, parentOf?]
    have hcont : ((idsOf (insertAfterSibL sid x cs).1).contains j) = ((idsOf cs).contains j) := by
      rw [contains_eq_decide, contains_eq_decide]
      exact decide_eq_decide.mpr (mem_idsOf_insertAfterSibL sid x j hj cs)
    rw [hcont]
    by_cases hc : (idsOf cs).contains j
    · rw [if_pos hc, if_pos hc]
    · rw [if_neg hc, if_neg hc]
      exact parentOfL?_insertAfterL sid x j hx cs

theorem parentOfL?_insertAfterL (sid : Nat) (x : DNode) (j : Nat) (hx : j ∉ docIds x) :
    ∀ cs : List DNode, parentOfL? j (insertAfterSibL sid x cs).1 = parentOfL? j cs
  | [] => by simp [insertAfterSibL]
  | c :: cs => by
    simp only [insertAfterSibL]
    by_cases hc : rootId c = sid
    · rw [if_pos hc]
      simp only [parentOfL?]
      rw [parentOf?_eq_none j x hx]
    · rw [if_neg hc]
      by_cases hflag : (insertAfterSib sid x c).2
      · rw [if_pos hflag]
        simp only [parentOfL?]
        rw [parentOf?_insertAfter sid x j hx c]
      · rw [if_neg hflag]
        simp only [parentOfL?]
        cases hq : parentOf? j c with
        | some q => simp
        | none => exact parentOfL?_insertAfterL sid x j hx cs

end

mutual

theorem parentOf?_insertBefore (sid : Nat) (x : DNode) (j : Nat) (hx : j ∉ docIds x) :
    ∀ d : DNode, parentOf? j (insertBeforeSib sid x d).1 = parentOf? j d
  | .node e cs => by
    have hj : j ≠ rootId x := fun h => hx (h ▸ rootId_mem_docIds x)
    simp only [insertBeforeSib, parentOf?]
    have hcont : ((idsOf (insertBeforeSibL sid x cs).1).contains j) = ((idsOf cs).contains j) := by
      rw [contains_eq_decide, contains_eq_decide]
      exact decide_eq_decide.mpr (mem_idsOf_insertBeforeSibL sid x j hj cs)
    rw [hcont]
    by_cases hc : (idsOf cs).contains j
    · rw [if_pos hc, if_pos hc]
    · rw [if_neg hc, if_neg hc]
      exact parentOfL?_insertBeforeL sid x j hx cs

theorem parentOfL?_insertBeforeL (sid : Nat) (x : DNode) (j : Nat) (hx : j ∉ docIds x) :
    ∀ cs : List DNode, parentOfL? j (insertBeforeSibL sid x cs).1 = parentOfL? j cs
  | [] => by simp [insertBeforeSibL]
  | c :: cs => by
    simp only [insertBeforeSibL]
    by_cases hc : rootId c = sid
    · rw [if_pos hc]
      simp only [parentOfL?]
      rw [parentOf?_eq_none j x hx]
    · rw [if_neg hc]
      by_cases hflag : (insertBeforeSib sid x c).2
      · rw [if_pos hflag]
        simp only [parentOfL?]
        rw [parentOf?_insertBefore sid x j hx c]
      · rw [if_neg hflag]
        simp only [parentOfL?]
        cases hq : parentOf? j c with
        | some q => simp
        | none => exact parentOfL?_insertBeforeL sid x j hx cs

end

theorem parentOf?_prependToRoot (j : Nat) (x : DNode) (hx : j ∉ docIds x) :
    ∀ d : DNode, parentOf? j (prependToRoot x d) = parentOf? j d
  | .node e cs => by
    have hj : j ≠ rootId x := fun h => hx (h ▸ rootId_mem_docIds x)
    simp only [prependToRoot, parentOf?]
    have hcont : ((idsOf (x :: cs)).contains j) = ((idsOf cs).contains j) := by
      rw [contains_eq_decide, contains_eq_decide]
      rw [decide_eq_decide]
      simp only [idsOf, List.map_cons, List.mem_cons]
      constructor
      · rintro (h | h)
        · exact absurd h hj
        · exact h
      · exact fun h => Or.inr h
    rw [hcont]
    by_cases hc : (idsOf cs).contains j
    · rw [if_pos hc, if_pos hc]
    · rw [if_neg hc, if_neg hc]
      simp only [parentOfL?]
      rw [parentOf?_eq_none j x hx]

/-! Named pieces of the container-creation step of
placeThemeToggleForViewport (lines 106-117 of the source): the created
div.mobile-tools node and its insertion by the first applicable rule. -/

def mobileToolsNode (d : DNode) : DNode :=
  .node { eid := freshId d, tag := "div", classes := ["mobile-tools"], text := "" } []

def insertContainerStep (d : DNode) : DNode :=
  if hasParentIn d (findId? isNavToggleBtn d) = true then
    (insertAfterSib ((findId? isNavToggleBtn d).getD 0) (mobileToolsNode d) d).1
  else if hasParentIn d (findId? isNavElem d) = true then
    (insertBeforeSib ((findId? isNavElem d).getD 0) (mobileToolsNode d) d).1
  else
    prependToRoot (mobileToolsNode d) d

theorem rootId_insertContainerStep (d : DNode) :
    rootId (insertContainerStep d) = rootId d := by
  unfold insertContainerStep
  by_cases h1 : hasParentIn d (findId? isNavToggleBtn d) = true
  · rw [if_pos h1, rootId_insertAfterSib]
  · rw [if_neg h1]
    by_cases h2 : hasParentIn d (findId? isNavElem d) = true
    · rw [if_pos h2, rootId_insertBeforeSib]
    · rw [if_neg h2, rootId_prependToRoot]

/-! Reductions of placeThemeToggleForViewport per branch. -/

theorem place_of_no_button (w : Nat) (d : DNode) (h : findId? isThemeToggle d = none) :
    placeThemeToggleForViewport w d = d := by
  unfold placeThemeToggleForViewport
  rw [h]

theorem place_mobile_existing_eq (w : Nat) (d : DNode) (btn mc : Nat)
    (hfind : findId? isThemeToggle d = some btn)
    (hm : viewportIsMobile w = true)
    (hres : (match findId? isMobileTools d with
             | some m => some m
             | none => findId? isHeaderActions d) = some mc) :
    placeThemeToggleForViewport w d =
      addClassById btn "theme-toggle-mobile"
        (if parentOf? btn d = some mc then d else moveIntoById mc btn d) := by
  unfold placeThemeToggleForViewport
  rw [hfind]
  simp only [hres, hm, if_true]

theorem place_mobile_create_eq (w : Nat) (d : DNode) (btn : Nat)
    (hfind : findId? isThemeToggle d = some btn)
    (hm : viewportIsMobile w = true)
    (hmt : findId? isMobileTools d = none)
    (hha : findId? isHeaderActions d = none) :
    placeThemeToggleForViewport w d =
      addClassById btn "theme-toggle-mobile"
        (if parentOf? btn (insertContainerStep d) = some (freshId d) then
           insertContainerStep d
         else
           moveIntoById (freshId d) btn (insertContainerStep d)) := by
  unfold placeThemeToggleForViewport insertContainerStep mobileToolsNode
  rw [hfind]
  simp only [hmt, hha, hm, if_true]

theorem place_desktop_eq (w : Nat) (d : DNode) (btn : Nat)
    (hfind : findId? isThemeToggle d = some btn)
    (hm : ¬(viewportIsMobile w = true)) :
    placeThemeToggleForViewport w d =
      removeClassById btn "theme-toggle-mobile"
        (match findId? isNavElem d with
         | some nv => if parentOf? btn d = some nv then d else moveIntoById nv btn d
         | none => d) := by
  unfold placeThemeToggleForViewport
  rw [hfind]
  simp only [hm, Bool.false_eq_true, if_false]

/-! Predicate stability under the class-marker updates. -/

theorem isThemeToggle_addMobile (e : Elem) :
    isThemeToggle (addClassE "theme-toggle-mobile" e) = isThemeToggle e :=
  addClassE_hasClass_other _ _ (by decide) e

theorem isMobileTools_addMobile (e : Elem) :
    isMobileTools (addClassE "theme-toggle-mobile" e) = isMobileTools e :=
  addClassE_hasClass_other _ _ (by decide) e

theorem isHeaderActions_addMobile (e : Elem) :
    isHeaderActions (addClassE "theme-toggle-mobile" e) = isHeaderActions e :=
  addClassE_hasClass_other _ _ (by decide) e

theorem isThemeToggle_removeMobile (e : Elem) :
    isThemeToggle (removeClassE "theme-toggle-mobile" e) = isThemeToggle e :=
  removeClassE_hasClass_other _ _ (by decide) e

theorem isNavElem_removeMobile (e : Elem) :
    isNavElem (removeClassE "theme-toggle-mobile" e) = isNavElem e := by
  simp [isNavElem, removeClassE_tag]

theorem collect_addClassById (p : Elem → Bool) (c : String) (i : Nat) (d : DNode)
    (hp : ∀ e, p (addClassE c e) = p e) :
    collectIds p (addClassById i c d) = collectIds p d :=
  collectIds_updateById p i (addClassE c) (addClassE_eid c) hp d

theorem collect_removeClassById (p : Elem → Bool) (c : String) (i : Nat) (d : DNode)
    (hp : ∀ e, p (removeClassE c e) = p e) :
    collectIds p (removeClassById i c d) = collectIds p d :=
  collectIds_updateById p i (removeClassE c) (removeClassE_eid c) hp d

theorem parentOf?_addClassById (j i : Nat) (c : String) (d : DNode) :
    parentOf? j (addClassById i c d) = parentOf? j d :=
  parentOf?_updateById j i (addClassE c) (addClassE_eid c) d

theorem parentOf?_removeClassById (j i : Nat) (c : String) (d : DNode) :
    parentOf? j (removeClassById i c d) = parentOf? j d :=
  parentOf?_updateById j i (removeClassE c) (removeClassE_eid c) d

theorem addClassById_idem (i : Nat) (c : String) (d : DNode) :
    addClassById i c (addClassById i c d) = addClassById i c d := by
  unfold addClassById
  rw [updateById_comp i _ _ (addClassE_eid c)]
  exact updateById_congr i _ _ (fun e => addClassE_idem c e) d

theorem removeClassById_idem (i : Nat) (c : String) (d : DNode) :
    removeClassById i c (removeClassById i c d) = removeClassById i c d := by
  unfold removeClassById
  rw [updateById_comp i _ _ (removeClassE_eid c)]
  exact updateById_congr i _ _ (fun e => removeClassE_idem c e) d

/-! Shared facts for the placement proofs. -/

theorem head_single {α : Type} {l : List α} {a : α}
    (h1 : l.head? = some a) (h2 : l.length ≤ 1) : l = [a] := by
  cases l with
  | nil => simp at h1
  | cons b t =>
    simp only [List.head?_cons, Option.some.injEq] at h1
    cases t with
    | nil => simp [h1]
    | cons c u => simp at h2

theorem filter_nil_of_imp {p q : Elem → Bool} (himp : ∀ e, p e = true → q e = true)
    {l : List Elem} (h : l.filter q = []) : l.filter p = [] := by
  rw [List.filter_eq_nil_iff] at h ⊢
  exact fun a ha hpa => h a ha (himp a hpa)

theorem special_find_not_in_sub (d sub0 : DNode) (p : Elem → Bool)
    (himp : ∀ e, p e = true → specialElem e = true)
    (hnodup : (docIds d).Nodup)
    (hsplit : ∃ A B, elems d = A ++ elems sub0 ++ B)
    (hcln : (elems sub0).filter specialElem = [])
    (j : Nat) (hfind : findId? p d = some j) : j ∉ docIds sub0 := by
  intro hmem
  obtain ⟨e, he, heid, hpe⟩ := mem_elems_of_findId? p d j hfind
  obtain ⟨e', he', heid'⟩ : ∃ e', e' ∈ elems sub0 ∧ e'.eid = j := by
    simp only [docIds, List.mem_map] at hmem
    obtain ⟨e', h1, h2⟩ := hmem
    exact ⟨e', h1, h2⟩
  obtain ⟨A, B, hAB⟩ := hsplit
  have he'd : e' ∈ elems d := by
    rw [hAB]
    exact List.mem_append_left _ (List.mem_append_right _ he')
  have heq := elem_eq_of_eid hnodup he he'd (by rw [heid, heid'])
  have hs : specialElem e' = true := himp e' (heq ▸ hpe)
  have hfil : e' ∈ (elems sub0).filter specialElem := List.mem_filter.mpr ⟨he', hs⟩
  rw [hcln] at hfil
  exact absurd hfil (List.not_mem_nil e')

theorem collectIds_split_skip (p : Elem → Bool) {d d' x : DNode} {A B : List Elem}
    (h1 : elems d = A ++ B) (h2 : elems d' = A ++ elems x ++ B)
    (hx : (elems x).filter p = []) : collectIds p d' = collectIds p d := by
  simp [collectIds, h1, h2, List.filter_append, hx]

theorem btn_core (d : DNode) (hnodup : (docIds d).Nodup)
    (hcount : (collectIds isThemeToggle d).length ≤ 1)
    (hroot : rootIsPlain d = true) (hclean : btnSubtreeClean d = true)
    (btn : Nat) (hfind : findId? isThemeToggle d = some btn) :
    collectIds isThemeToggle d = [btn] ∧ btn ∈ docIds d ∧ btn ≠ rootId d ∧
    ∃ sub0, findNode? btn d = some sub0 ∧ (extract btn d).2 = some sub0 ∧
      rootId sub0 = btn ∧ (elems sub0).filter specialElem = [] ∧
      (∃ A B, elems d = A ++ elems sub0 ++ B) := by
  have hsingle : collectIds isThemeToggle d = [btn] := head_single hfind hcount
  have hbmem : btn ∈ docIds d := findId?_mem_docIds _ d btn hfind
  have hbroot : btn ≠ rootId d := by
    intro heq
    obtain ⟨e, he, heid, hpe⟩ := mem_elems_of_findId? _ d btn hfind
    have hre : rootElem d ∈ elems d := rootElem_mem_elems d
    have heq2 := elem_eq_of_eid hnodup he hre (by rw [heid, heq]; rfl)
    simp only [rootIsPlain, Bool.and_eq_true, Bool.not_eq_eq_eq_not, Bool.not_true] at hroot
    rw [heq2] at hpe
    rw [hroot.1] at hpe
    exact Bool.noConfusion hpe
  have hsome : (findNode? btn d).isSome = true := (findNode?_isSome_iff btn d).mpr hbmem
  cases hsub : findNode? btn d with
  | none =>
    rw [hsub] at hsome
    simp at hsome
  | some sub0 =>
    have hext0 : (extract btn d).2 = some sub0 := by
      rw [extract_eq_findNode btn d (fun h => hbroot h.symm), hsub]
    have hrs0 : rootId sub0 = btn := findNode?_rootId btn d sub0 hsub
    have hcln0 : (elems sub0).filter specialElem = [] := by
      unfold btnSubtreeClean at hclean
      simp only [hfind, hsub] at hclean
      simpa using hclean
    obtain ⟨A, B, hA, hB⟩ := extract_split btn d sub0 hext0
    exact ⟨hsingle, hbmem, hbroot, sub0, rfl, hext0, hrs0, hcln0, A, B, hA⟩

theorem placed_facts_existing (d : DNode) (btn mc : Nat)
    (hnodup : (docIds d).Nodup)
    (hsingle : collectIds isThemeToggle d = [btn])
    (hbmem : btn ∈ docIds d) (hbroot : btn ≠ rootId d)
    (sub0 : DNode)
    (hext0 : (extract btn d).2 = some sub0)
    (hcln0 : (elems sub0).filter specialElem = [])
    (hmcmem : mc ∈ docIds d)
    (hmcnotsub : mc ∉ docIds sub0) :
    collectIds isThemeToggle (if parentOf? btn d = some mc then d else moveIntoById mc btn d)
      = [btn] ∧
    (∀ p' : Elem → Bool, (∀ e, p' e = true → specialElem e = true) →
      collectIds p' (if parentOf? btn d = some mc then d else moveIntoById mc btn d)
        = collectIds p' d) ∧
    parentOf? btn (if parentOf? btn d = some mc then d else moveIntoById mc btn d) = some mc := by
  by_cases hpar : parentOf? btn d = some mc
  · rw [if_pos hpar]
    exact ⟨hsingle, fun p' _ => rfl, hpar⟩
  · rw [if_neg hpar]
    refine ⟨?_, ?_, ?_⟩
    · have hperm := collectIds_perm_of_elems_perm isThemeToggle d _ (elems_moveInto_perm mc btn d)
      rw [hsingle] at hperm
      exact List.perm_singleton.mp hperm
    · intro p' himp
      apply collectIds_moveInto
      intro sub hsub
      rw [hext0] at hsub
      cases hsub
      exact filter_nil_of_imp himp hcln0
    · exact parentOf?_moveInto mc btn d hnodup hbmem hbroot hmcmem
        (fun sub hsub => by
          rw [hext0] at hsub
          cases hsub
          exact hmcnotsub)

theorem docIds_mobileToolsNode (d : DNode) : docIds (mobileToolsNode d) = [freshId d] := by
  simp [mobileToolsNode, docIds, elems_node, elemsL]

theorem elems_mobileToolsNode (d : DNode) :
    elems (mobileToolsNode d)
      = [{ eid := freshId d, tag := "div", classes := ["mobile-tools"], text := "" }] := by
  simp [mobileToolsNode, elems_node, elemsL]

theorem create_insert_facts (d : DNode) (btn : Nat) (sub0 : DNode)
    (hnodup : (docIds d).Nodup) (hbmem : btn ∈ docIds d) (hbroot : btn ≠ rootId d)
    (hsub0 : findNode? btn d = some sub0)
    (hcln0 : (elems sub0).filter specialElem = [])
    (hsplit0 : ∃ A B, elems d = A ++ elems sub0 ++ B) :
    (∃ A B, elems d = A ++ B
      ∧ elems (insertContainerStep d) = A ++ elems (mobileToolsNode d) ++ B) ∧
    findNode? btn (insertContainerStep d) = some sub0 ∧
    parentOf? btn (insertContainerStep d) = parentOf? btn d := by
  have hbtnid : btn ≠ freshId d := fun h => freshId_not_mem d (h ▸ hbmem)
  have hx : btn ∉ docIds (mobileToolsNode d) := by
    rw [docIds_mobileToolsNode]
    simp [hbtnid]
  unfold insertContainerStep
  by_cases hnt : hasParentIn d (findId? isNavToggleBtn d) = true
  · rw [if_pos hnt]
    cases hfnt : findId? isNavToggleBtn d with
    | none =>
      rw [hfnt] at hnt
      simp [hasParentIn] at hnt
    | some nt =>
      rw [hfnt] at hnt
      simp only [hasParentIn] at hnt
      simp only [Option.getD_some]
      cases hq : parentOf? nt d with
      | none =>
        rw [hq] at hnt
        simp at hnt
      | some q =>
        have hflag := insertAfterSib_of_parent nt (mobileToolsNode d) d q hq
        have hntnot : nt ∉ docIds sub0 :=
          special_find_not_in_sub d sub0 isNavToggleBtn
            (fun e he => by simp [specialElem, he]) hnodup hsplit0 hcln0 nt hfnt
        refine ⟨?_, ?_, ?_⟩
        · obtain ⟨A, B, h1, h2⟩ := insertAfterSib_split nt (mobileToolsNode d) d hflag
          exact ⟨A, B, h1, h2⟩
        · rw [findNode?_insertAfter nt (mobileToolsNode d) btn hx d ?cond]
          · exact hsub0
          case cond =>
            intro n hn
            rw [hsub0] at hn
            cases hn
            exact hntnot
        · exact parentOf?_insertAfter nt (mobileToolsNode d) btn hx d
  · rw [if_neg hnt]
    by_cases hnv : hasParentIn d (findId? isNavElem d) = true
    · rw [if_pos hnv]
      cases hfnv : findId? isNavElem d with
      | none =>
        rw [hfnv] at hnv
        simp [hasParentIn] at hnv
      | some nv =>
        rw [hfnv] at hnv
        simp only [hasParentIn] at hnv
        simp only [Option.getD_some]
        cases hq : parentOf? nv d with
        | none =>
          rw [hq] at hnv
          simp at hnv
        | some q =>
          have hflag := insertBeforeSib_of_parent nv (mobileToolsNode d) d q hq
          have hnvnot : nv ∉ docIds sub0 :=
            special_find_not_in_sub d sub0 isNavElem
              (fun e he => by simp [specialElem, he]) hnodup hsplit0 hcln0 nv hfnv
          refine ⟨?_, ?_, ?_⟩
          · obtain ⟨A, B, h1, h2⟩ := insertBeforeSib_split nv (mobileToolsNode d) d hflag
            exact ⟨A, B, h1, h2⟩
          · rw [findNode?_insertBefore nv (mobileToolsNode d) btn hx d ?cond2]
            · exact hsub0
            case cond2 =>
              intro n hn
              rw [hsub0] at hn
              cases hn
              exact hnvnot
          · exact parentOf?_insertBefore nv (mobileToolsNode d) btn hx d
    · rw [if_neg hnv]
      refine ⟨?_, ?_, ?_⟩
      · cases d with
        | node e cs =>
          refine ⟨[e], elemsL cs, by simp [elems_node], ?_⟩
          simp [elems_prependToRoot, rootElem, childrenOf, elems_node]
      · rw [findNode?_prependToRoot btn (mobileToolsNode d) hx d hbroot]
        exact hsub0
      · exact parentOf?_prependToRoot btn (mobileToolsNode d) hx d

theorem specialElem_of_isMobileTools (e : Elem) (he : isMobileTools e = true) :
    specialElem e = true := by
  simp [specialElem, he]

theorem specialElem_of_isHeaderActions (e : Elem) (he : isHeaderActions e = true) :
    specialElem e = true := by
  simp [specialElem, he]

theorem specialElem_of_isNavElem (e : Elem) (he : isNavElem e = true) :
    specialElem e = true := by
  simp [specialElem, he]

theorem mobile_existing_main (w : Nat) (d : DNode) (btn mc : Nat)
    (hnodup : (docIds d).Nodup)
    (hsingle : collectIds isThemeToggle d = [btn])
    (hbmem : btn ∈ docIds d) (hbroot : btn ≠ rootId d)
    (sub0 : DNode) (hext0 : (extract btn d).2 = some sub0)
    (hcln0 : (elems sub0).filter specialElem = [])
    (hfind : findId? isThemeToggle d = some btn)
    (hm : viewportIsMobile w = true)
    (hres : (match findId? isMobileTools d with
             | some m => some m
             | none => findId? isHeaderActions d) = some mc)
    (hmcmem : mc ∈ docIds d) (hmcnot : mc ∉ docIds sub0) :
    placeThemeToggleForViewport w (placeThemeToggleForViewport w d)
      = placeThemeToggleForViewport w d := by
  obtain ⟨hM1, hM2, hM3⟩ := placed_facts_existing d btn mc hnodup hsingle hbmem hbroot
    sub0 hext0 hcln0 hmcmem hmcnot
  have hplace1 := place_mobile_existing_eq w d btn mc hfind hm hres
  rw [hplace1]
  have f1 : findId? isThemeToggle
      (addClassById btn "theme-toggle-mobile"
        (if parentOf? btn d = some mc then d else moveIntoById mc btn d)) = some btn := by
    apply findId?_of_collect_singleton
    rw [collect_addClassById _ _ _ _ isThemeToggle_addMobile, hM1]
  have fmt : findId? isMobileTools
      (addClassById btn "theme-toggle-mobile"
        (if parentOf? btn d = some mc then d else moveIntoById mc btn d))
      = findId? isMobileTools d := by
    unfold findId?
    rw [collect_addClassById _ _ _ _ isMobileTools_addMobile,
      hM2 isMobileTools specialElem_of_isMobileTools]
  have fha : findId? isHeaderActions
      (addClassById btn "theme-toggle-mobile"
        (if parentOf? btn d = some mc then d else moveIntoById mc btn d))
      = findId? isHeaderActions d := by
    unfold findId?
    rw [collect_addClassById _ _ _ _ isHeaderActions_addMobile,
      hM2 isHeaderActions specialElem_of_isHeaderActions]
  have fres : (match findId? isMobileTools
        (addClassById btn "theme-toggle-mobile"
          (if parentOf? btn d = some mc then d else moveIntoById mc btn d)) with
      | some m => some m
      | none => findId? isHeaderActions
          (addClassById btn "theme-toggle-mobile"
            (if parentOf? btn d = some mc then d else moveIntoById mc btn d))) = some mc := by
    rw [fmt, fha]
    exact hres
  have f3 : parentOf? btn
      (addClassById btn "theme-toggle-mobile"
        (if parentOf? btn d = some mc then d else moveIntoById mc btn d)) = some mc := by
    rw [parentOf?_addClassById]
    exact hM3
  rw [place_mobile_existing_eq w _ btn mc f1 hm fres, if_pos f3]
  exact addClassById_idem btn "theme-toggle-mobile" _

theorem desktop_main (w : Nat) (d : DNode) (btn : Nat)
    (hnodup : (docIds d).Nodup)
    (hsingle : collectIds isThemeToggle d = [btn])
    (hbmem : btn ∈ docIds d) (hbroot : btn ≠ rootId d)
    (sub0 : DNode) (hext0 : (extract btn d).2 = some sub0)
    (hcln0 : (elems sub0).filter specialElem = [])
    (hfind : findId? isThemeToggle d = some btn)
    (hm : ¬(viewportIsMobile w = true)) :
    placeThemeToggleForViewport w (placeThemeToggleForViewport w d)
      = placeThemeToggleForViewport w d := by
  cases hnav : findId? isNavElem d with
  | none =>
    have hplace1 : placeThemeToggleForViewport w d
        = removeClassById btn "theme-toggle-mobile" d := by
      rw [place_desktop_eq w d btn hfind hm, hnav]
    rw [hplace1]
    have f1 : findId? isThemeToggle (removeClassById btn "theme-toggle-mobile" d)
        = some btn := by
      apply findId?_of_collect_singleton
      rw [collect_removeClassById _ _ _ _ isThemeToggle_removeMobile, hsingle]
    have fnav : findId? isNavElem (removeClassById btn "theme-toggle-mobile" d) = none := by
      unfold findId?
      rw [collect_removeClassById _ _ _ _ isNavElem_removeMobile]
      exact hnav
    rw [place_desktop_eq w _ btn f1 hm, fnav]
    exact removeClassById_idem btn "theme-toggle-mobile" d
  | some nv =>
    have hnvmem : nv ∈ docIds d := findId?_mem_docIds _ d nv hnav
    have hnvnot : nv ∉ docIds sub0 := by
      obtain ⟨A0, B0, hsp⟩ := extract_split btn d sub0 hext0
      exact special_find_not_in_sub d sub0 isNavElem specialElem_of_isNavElem hnodup
        ⟨A0, B0, hsp.1⟩ hcln0 nv hnav
    obtain ⟨hM1, hM2, hM3⟩ := placed_facts_existing d btn nv hnodup hsingle hbmem hbroot
      sub0 hext0 hcln0 hnvmem hnvnot
    have hplace1 : placeThemeToggleForViewport w d
        = removeClassById btn "theme-toggle-mobile"
            (if parentOf? btn d = some nv then d else moveIntoById nv btn d) := by
      rw [place_desktop_eq w d btn hfind hm, hnav]
    rw [hplace1]
    have f1 : findId? isThemeToggle
        (removeClassById btn "theme-toggle-mobile"
          (if parentOf? btn d = some nv then d else moveIntoById nv btn d)) = some btn := by
      apply findId?_of_collect_singleton
      rw [collect_removeClassById _ _ _ _ isThemeToggle_removeMobile, hM1]
    have fnav : findId? isNavElem
        (removeClassById btn "theme-toggle-mobile"
          (if parentOf? btn d = some nv then d else moveIntoById nv btn d))
        = some nv := by
      unfold findId?
      rw [collect_removeClassById _ _ _ _ isNavElem_removeMobile,
        hM2 isNavElem specialElem_of_isNavElem]
      exact hnav
    have f3 : parentOf? btn
        (removeClassById btn "theme-toggle-mobile"
          (if parentOf? btn d = some nv then d else moveIntoById nv btn d)) = some nv := by
      rw [parentOf?_removeClassById]
      exact hM3
    have hplace2 : placeThemeToggleForViewport w
        (removeClassById btn "theme-toggle-mobile"
          (if parentOf? btn d = some nv then d else moveIntoById nv btn d))
        = removeClassById btn "theme-toggle-mobile"
            (if parentOf? btn
                (removeClassById btn "theme-toggle-mobile"
                  (if parentOf? btn d = some nv then d else moveIntoById nv btn d)) = some nv
             then
               removeClassById btn "theme-toggle-mobile"
                 (if parentOf? btn d = some nv then d else moveIntoById nv btn d)
             else
               moveIntoById nv btn
                 (removeClassById btn "theme-toggle-mobile"
                   (if parentOf? btn d = some nv then d else moveIntoById nv btn d))) := by
      rw [place_desktop_eq w _ btn f1 hm, fnav]
    rw [hplace2, if_pos f3]
    exact removeClassById_idem btn "theme-toggle-mobile" _

theorem mobile_create_main (w : Nat) (d : DNode) (btn : Nat)
    (hnodup : (docIds d).Nodup)
    (hsingle : collectIds isThemeToggle d = [btn])
    (hbmem : btn ∈ docIds d) (hbroot : btn ≠ rootId d)
    (sub0 : DNode) (hsub0 : findNode? btn d = some sub0)
    (hcln0 : (elems sub0).filter specialElem = [])
    (hsplit0 : ∃ A B, elems d = A ++ elems sub0 ++ B)
    (hfind : findId? isThemeToggle d = some btn)
    (hm : viewportIsMobile w = true)
    (hmt : findId? isMobileTools d = none)
    (hha : findId? isHeaderActions d = none) :
    placeThemeToggleForViewport w (placeThemeToggleForViewport w d)
      = placeThemeToggleForViewport w d := by
  obtain ⟨⟨A, B, hAB1, hAB2⟩, hfnIns, hparIns⟩ :=
    create_insert_facts d btn sub0 hnodup hbmem hbroot hsub0 hcln0 hsplit0
  have hcond : ¬(parentOf? btn (insertContainerStep d) = some (freshId d)) := by
    rw [hparIns]
    intro h
    exact freshId_not_mem d (parentOf?_q_mem btn d (freshId d) h)
  have hplace1 : placeThemeToggleForViewport w d
      = addClassById btn "theme-toggle-mobile"
          (moveIntoById (freshId d) btn (insertContainerStep d)) := by
    rw [place_mobile_create_eq w d btn hfind hm hmt hha, if_neg hcond]
  have hidsIns : docIds (insertContainerStep d)
      = A.map Elem.eid ++ [freshId d] ++ B.map Elem.eid := by
    simp [docIds, hAB2, elems_mobileToolsNode]
  have hidsd : docIds d = A.map Elem.eid ++ B.map Elem.eid := by
    simp [docIds, hAB1]
  have hnodupIns : (docIds (insertContainerStep d)).Nodup := by
    rw [hidsIns]
    have heq : A.map Elem.eid ++ [freshId d] ++ B.map Elem.eid
        = A.map Elem.eid ++ freshId d :: B.map Elem.eid := by
      simp
    rw [heq]
    rw [List.nodup_middle]
    constructor
    · rw [← hidsd]
      exact fun a' ha' heq => freshId_not_mem d (heq ▸ ha')
    · rw [← hidsd]
      exact hnodup
  have hbmemIns : btn ∈ docIds (insertContainerStep d) := by
    rw [hidsIns]
    have : btn ∈ A.map Elem.eid ++ B.map Elem.eid := hidsd ▸ hbmem
    rcases List.mem_append.mp this with h | h
    · exact List.mem_append_left _ (List.mem_append_left _ h)
    · exact List.mem_append_right _ h
  have hbrootIns : btn ≠ rootId (insertContainerStep d) := by
    rw [rootId_insertContainerStep]
    exact hbroot
  have hnidmemIns : freshId d ∈ docIds (insertContainerStep d) := by
    rw [hidsIns]
    exact List.mem_append_left _ (List.mem_append_right _ (List.mem_singleton_self _))
  have hextIns : (extract btn (insertContainerStep d)).2 = some sub0 := by
    rw [extract_eq_findNode btn (insertContainerStep d)
      (by rw [rootId_insertContainerStep]; exact fun h => hbroot h.symm)]
    exact hfnIns
  have hnidnotsub : freshId d ∉ docIds sub0 := by
    intro hmem
    obtain ⟨A0, B0, hsp⟩ := hsplit0
    apply freshId_not_mem d
    have : docIds d = A0.map Elem.eid ++ docIds sub0 ++ B0.map Elem.eid := by
      simp [docIds, hsp]
    rw [this]
    exact List.mem_append_left _ (List.mem_append_right _ hmem)
  have hparD2 : parentOf? btn (moveIntoById (freshId d) btn (insertContainerStep d))
      = some (freshId d) :=
    parentOf?_moveInto (freshId d) btn (insertContainerStep d) hnodupIns hbmemIns hbrootIns
      hnidmemIns (fun sub hsub => by
        rw [hextIns] at hsub
        cases hsub
        exact hnidnotsub)
  have hcNtt : (elems (mobileToolsNode d)).filter isThemeToggle = [] := by
    rw [elems_mobileToolsNode]
    simp [isThemeToggle, Elem.hasClass]
  have hcollttIns : collectIds isThemeToggle (insertContainerStep d) = [btn] := by
    rw [collectIds_split_skip isThemeToggle hAB1 hAB2 hcNtt]
    exact hsingle
  have hcollttD2 : collectIds isThemeToggle
      (moveIntoById (freshId d) btn (insertContainerStep d)) = [btn] := by
    have hperm := collectIds_perm_of_elems_perm isThemeToggle (insertContainerStep d) _
      (elems_moveInto_perm (freshId d) btn (insertContainerStep d))
    rw [hcollttIns] at hperm
    exact List.perm_singleton.mp hperm
  have hcolld : collectIds isMobileTools d = [] := by
    unfold findId? at hmt
    cases hl : collectIds isMobileTools d with
    | nil => rfl
    | cons a l =>
      rw [hl] at hmt
      simp at hmt
  have hcollmtIns : collectIds isMobileTools (insertContainerStep d) = [freshId d] := by
    have hcNmt : (elems (mobileToolsNode d)).filter isMobileTools
        = [{ eid := freshId d, tag := "div", classes := ["mobile-tools"], text := "" }] := by
      rw [elems_mobileToolsNode]
      simp [isMobileTools, Elem.hasClass]
    have hfil : (elems d).filter isMobileTools = [] := by
      have : collectIds isMobileTools d = [] := hcolld
      simp only [collectIds] at this
      exact List.map_eq_nil_iff.mp this
    rw [hAB1, List.filter_append] at hfil
    obtain ⟨hfA, hfB⟩ := List.append_eq_nil.mp hfil
    simp [collectIds, hAB2, List.filter_append, hfA, hfB, hcNmt]
  have hcollmtD2 : collectIds isMobileTools
      (moveIntoById (freshId d) btn (insertContainerStep d)) = [freshId d] := by
    have hperm := collectIds_perm_of_elems_perm isMobileTools (insertContainerStep d) _
      (elems_moveInto_perm (freshId d) btn (insertContainerStep d))
    rw [hcollmtIns] at hperm
    exact List.perm_singleton.mp hperm
  rw [hplace1]
  have f1 : findId? isThemeToggle
      (addClassById btn "theme-toggle-mobile"
        (moveIntoById (freshId d) btn (insertContainerStep d))) = some btn := by
    apply findId?_of_collect_singleton
    rw [collect_addClassById _ _ _ _ isThemeToggle_addMobile, hcollttD2]
  have fmt : findId? isMobileTools
      (addClassById btn "theme-toggle-mobile"
        (moveIntoById (freshId d) btn (insertContainerStep d))) = some (freshId d) := by
    apply findId?_of_collect_singleton
    rw [collect_addClassById _ _ _ _ isMobileTools_addMobile, hcollmtD2]
  have f3 : parentOf? btn
      (addClassById btn "theme-toggle-mobile"
        (moveIntoById (freshId d) btn (insertContainerStep d))) = some (freshId d) := by
    rw [parentOf?_addClassById]
    exact hparD2
  have fres : (match findId? isMobileTools
        (addClassById btn "theme-toggle-mobile"
          (moveIntoById (freshId d) btn (insertContainerStep d))) with
      | some m => some m
      | none => findId? isHeaderActions
          (addClassById btn "theme-toggle-mobile"
            (moveIntoById (freshId d) btn (insertContainerStep d)))) = some (freshId d) := by
    rw [fmt]
  rw [place_mobile_existing_eq w _ btn (freshId d) f1 hm fres, if_pos f3]
  exact addClassById_idem btn "theme-toggle-mobile" _

/-! Sibling adjacency: a is directly followed by b in some child list. -/

def adjIn (a b : Nat) : List Nat → Bool
  | [] => false
  | [_] => false
  | x :: y :: l => (decide (x = a) && decide (y = b)) || adjIn a b (y :: l)

mutual

def adjSib (a b : Nat) : DNode → Bool
  | .node _ cs => adjIn a b (idsOf cs) || adjSibL a b cs

def adjSibL (a b : Nat) : List DNode → Bool
  | [] => false
  | c :: cs => adjSib a b c || adjSibL a b cs

end

theorem adjIn_iff (a b : Nat) : ∀ l : List Nat, adjIn a b l = true ↔ ∃ u v, l = u ++ a :: b :: v
  | [] => by
    simp only [adjIn]
    constructor
    · intro h
      exact Bool.noConfusion h
    · rintro ⟨u, v, h⟩
      exact absurd h (by simp)
  | [x] => by
    simp only [adjIn]
    constructor
    · intro h
      exact Bool.noConfusion h
    · rintro ⟨u, v, h⟩
      cases u with
      | nil => simp at h
      | cons p u' => simp at h
  | x :: y :: l => by
    simp only [adjIn, Bool.or_eq_true, Bool.and_eq_true, decide_eq_true_eq]
    rw [adjIn_iff a b (y :: l)]
    constructor
    · rintro (⟨hx, hy⟩ | ⟨u, v, h⟩)
      · exact ⟨[], l, by simp [hx, hy]⟩
      · exact ⟨x :: u, v, by simp [h]⟩
    · rintro ⟨u, v, h⟩
      cases u with
      | nil =>
        simp only [List.nil_append, List.cons.injEq] at h
        exact Or.inl ⟨h.1, h.2.1⟩
      | cons p u' =>
        simp only [List.cons_append, List.cons.injEq] at h
        exact Or.inr ⟨u', v, h.2⟩

theorem adjIn_mem_a {a b : Nat} {l : List Nat} (h : adjIn a b l = true) : a ∈ l := by
  obtain ⟨u, v, hl⟩ := (adjIn_iff a b l).mp h
  rw [hl]
  exact List.mem_append_right _ (List.mem_cons_self _ _)

theorem adjIn_erase {a b i : Nat} {l : List Nat} (h : adjIn a b l = true)
    (ha : i ≠ a) (hb : i ≠ b) : adjIn a b (l.erase i) = true := by
  obtain ⟨u, v, hl⟩ := (adjIn_iff a b l).mp h
  rw [(adjIn_iff a b _)]
  subst hl
  by_cases hu : i ∈ u
  · rw [List.erase_append_left _ hu]
    exact ⟨u.erase i, v, rfl⟩
  · rw [List.erase_append_right _ hu]
    rw [List.erase_cons_tail, List.erase_cons_tail]
    · exact ⟨u, v.erase i, rfl⟩
    · simp only [beq_iff_eq]
      exact fun hh => hb hh.symm
    · simp only [beq_iff_eq]
      exact fun hh => ha hh.symm

theorem adjIn_append_right {a b : Nat} {l l2 : List Nat} (h : adjIn a b l = true) :
    adjIn a b (l ++ l2) = true := by
  obtain ⟨u, v, hl⟩ := (adjIn_iff a b l).mp h
  rw [adjIn_iff]
  exact ⟨u, v ++ l2, by simp [hl]⟩

theorem adjIn_cons {a b x : Nat} {l : List Nat} (h : adjIn a b l = true) :
    adjIn a b (x :: l) = true := by
  obtain ⟨u, v, hl⟩ := (adjIn_iff a b l).mp h
  rw [adjIn_iff]
  exact ⟨x :: u, v, by simp [hl]⟩

theorem adjSibL_append (a b : Nat) :
    ∀ cs ds : List DNode, adjSibL a b (cs ++ ds) = (adjSibL a b cs || adjSibL a b ds)
  | [], ds => by simp [adjSibL]
  | c :: cs, ds => by
    simp [adjSibL, adjSibL_append a b cs ds, Bool.or_assoc]

mutual

theorem adjSib_mem_a (a b : Nat) : ∀ d : DNode, adjSib a b d = true → a ∈ docIds d
  | .node e cs, h => by
    simp only [adjSib, Bool.or_eq_true] at h
    rw [docIds_node]
    rcases h with h | h
    · exact List.mem_cons_of_mem _ (mem_docIdsL_of_mem_idsOf cs (adjIn_mem_a h))
    · exact List.mem_cons_of_mem _ (adjSibL_mem_a a b cs h)

theorem adjSibL_mem_a (a b : Nat) : ∀ cs : List DNode, adjSibL a b cs = true → a ∈ docIdsL cs
  | [], h => by simp [adjSibL] at h
  | c :: cs, h => by
    simp only [adjSibL, Bool.or_eq_true] at h
    rw [docIdsL_cons]
    rcases h with h | h
    · exact List.mem_append_left _ (adjSib_mem_a a b c h)
    · exact List.mem_append_right _ (adjSibL_mem_a a b cs h)

end

theorem idsOf_extractL (i : Nat) :
    ∀ cs : List DNode, ∀ sub, (extractL i cs).2 = some sub →
      idsOf (extractL i cs).1 = (idsOf cs).erase i ∨ idsOf (extractL i cs).1 = idsOf cs
  | [], sub => by simp [extractL]
  | c :: cs, sub => by
    simp only [extractL]
    by_cases hc : rootId c = i
    · rw [if_pos hc]
      intro _
      left
      simp only [idsOf, List.map_cons, hc]
      rw [List.erase_cons_head]
    · rw [if_neg hc]
      cases h2 : (extract i c).2 with
      | some x =>
        intro _
        right
        simp [idsOf, rootId_extract]
      | none =>
        intro h
        rcases idsOf_extractL i cs sub h with hE | hS
        · left
          simp only [idsOf, List.map_cons]
          rw [List.erase_cons_tail]
          · simp only [idsOf] at hE
            rw [hE]
          · simp only [beq_iff_eq]
            exact hc
        · right
          simp only [idsOf, List.map_cons]
          simp only [idsOf] at hS
          rw [hS]

mutual

theorem adjSib_extract (a b i : Nat) (ha : i ≠ a) (hb : i ≠ b) :
    ∀ d : DNode, ∀ sub, (extract i d).2 = some sub → a ∉ docIds sub →
      adjSib a b d = true → adjSib a b (extract i d).1 = true
  | .node e cs, sub, hx, hmem, hadj => by
    simp only [extract] at hx ⊢
    simp only [adjSib, Bool.or_eq_true] at hadj ⊢
    rcases hadj with h1 | h2
    · left
      rcases idsOf_extractL i cs sub hx with hE | hS
      · rw [hE]
        exact adjIn_erase h1 ha hb
      · rw [hS]
        exact h1
    · right
      exact adjSibL_extract a b i ha hb cs sub hx hmem h2

theorem adjSibL_extract (a b i : Nat) (ha : i ≠ a) (hb : i ≠ b) :
    ∀ cs : List DNode, ∀ sub, (extractL i cs).2 = some sub → a ∉ docIds sub →
      adjSibL a b cs = true → adjSibL a b (extractL i cs).1 = true
  | [], sub, hx, _, _ => by simp [extractL] at hx
  | c :: cs, sub, hx, hmem, hadj => by
    simp only [extractL] at hx ⊢
    simp only [adjSibL, Bool.or_eq_true] at hadj ⊢
    by_cases hc : rootId c = i
    · rw [if_pos hc] at hx ⊢
      cases hx
      rcases hadj with h1 | h2
      · exact absurd (adjSib_mem_a a b c h1) hmem
      · exact h2
    · rw [if_neg hc] at hx ⊢
      cases h2 : (extract i c).2 with
      | some x =>
        rw [h2] at hx
        simp only [Option.some.injEq] at hx
        simp only [adjSibL, Bool.or_eq_true]
        rcases hadj with h1 | h3
        · left
          exact adjSib_extract a b i ha hb c sub (by rw [h2, hx]) hmem h1
        · right
          exact h3
      | none =>
        rw [h2] at hx
        simp only at hx
        simp only [adjSibL, Bool.or_eq_true]
        rcases hadj with h1 | h3
        · left
          exact h1
        · right
          exact adjSibL_extract a b i ha hb cs sub hx hmem h3

end

mutual

theorem adjSib_appendChild (a b pid : Nat) (x : DNode) :
    ∀ d : DNode, adjSib a b d = true → adjSib a b (appendChild pid x d).1 = true
  | .node e cs, h => by
    simp only [appendChild]
    simp only [adjSib, Bool.or_eq_true] at h
    by_cases he : e.eid = pid
    · rw [if_pos he]
      simp only [adjSib, Bool.or_eq_true]
      rcases h with h | h
      · left
        have : idsOf (cs ++ [x]) = idsOf cs ++ [rootId x] := by
          simp [idsOf]
        rw [this]
        exact adjIn_append_right h
      · right
        rw [adjSibL_append]
        simp [h]
    · rw [if_neg he]
      simp only [adjSib, Bool.or_eq_true]
      rcases h with h | h
      · left
        have hids := idsOf_appendChildL pid x cs
        rw [hids]
        exact h
      · right
        exact adjSibL_appendChildL a b pid x cs h

theorem adjSibL_appendChildL (a b pid : Nat) (x : DNode) :
    ∀ cs : List DNode, adjSibL a b cs = true → adjSibL a b (appendChildL pid x cs).1 = true
  | [], h => by simp [adjSibL] at h
  | c :: cs, h => by
    simp only [appendChildL]
    simp only [adjSibL, Bool.or_eq_true] at h
    by_cases hf : (appendChild pid x c).2
    · rw [if_pos hf]
      simp only [adjSibL, Bool.or_eq_true]
      rcases h with h | h
      · left
        exact adjSib_appendChild a b pid x c h
      · right
        exact h
    · rw [if_neg hf]
      simp only [adjSibL, Bool.or_eq_true]
      rcases h with h | h
      · left
        exact h
      · right
        exact adjSibL_appendChildL a b pid x cs h

end

theorem adjSib_moveInto (a b pid bid : Nat) (d : DNode)
    (ha : bid ≠ a) (hb : bid ≠ b)
    (hsub : ∀ sub, (extract bid d).2 = some sub → a ∉ docIds sub)
    (h : adjSib a b d = true) : adjSib a b (moveIntoById pid bid d) = true := by
  unfold moveIntoById
  cases h2 : (extract bid d).2 with
  | none =>
    simp only [h2]
    exact h
  | some sub =>
    simp only [h2]
    by_cases hfl : (appendChild pid sub (extract bid d).1).2
    · rw [if_pos hfl]
      exact adjSib_appendChild a b pid sub _ (adjSib_extract a b bid ha hb d sub h2 (hsub sub h2) h)
    · rw [if_neg hfl]
      exact h

mutual

theorem adjSib_updateById (a b i : Nat) (f : Elem → Elem) (hid : ∀ e, (f e).eid = e.eid) :
    ∀ d : DNode, adjSib a b (updateById i f d) = adjSib a b d
  | .node e cs => by
    simp only [updateById, adjSib, idsOf_updateByIdL i f hid cs,
      adjSibL_updateByIdL a b i f hid cs]

theorem adjSibL_updateByIdL (a b i : Nat) (f : Elem → Elem) (hid : ∀ e, (f e).eid = e.eid) :
    ∀ cs : List DNode, adjSibL a b (updateByIdL i f cs) = adjSibL a b cs
  | [] => by simp [updateByIdL]
  | c :: cs => by
    simp only [updateByIdL, adjSibL, adjSib_updateById a b i f hid c,
      adjSibL_updateByIdL a b i f hid cs]

end

mutual

theorem adjSib_insertAfter_est (sid : Nat) (x : DNode) :
    ∀ d : DNode, (insertAfterSib sid x d).2 = true →
      adjSib sid (rootId x) (insertAfterSib sid x d).1 = true
  | .node e cs, h => by
    simp only [insertAfterSib] at h ⊢
    simp only [adjSib, Bool.or_eq_true]
    rcases adjSibL_insertAfter_est sid x cs h with h1 | h1
    · exact Or.inl h1
    · exact Or.inr h1

theorem adjSibL_insertAfter_est (sid : Nat) (x : DNode) :
    ∀ cs : List DNode, (insertAfterSibL sid x cs).2 = true →
      adjIn sid (rootId x) (idsOf (insertAfterSibL sid x cs).1) = true ∨
      adjSibL sid (rootId x) (insertAfterSibL sid x cs).1 = true
  | [], h => by simp [insertAfterSibL] at h
  | c :: cs, h => by
    simp only [insertAfterSibL] at h ⊢
    by_cases hc : rootId c = sid
    · rw [if_pos hc]
      left
      rw [adjIn_iff]
      exact ⟨[], idsOf cs, by simp [idsOf, hc]⟩
    · rw [if_neg hc] at h ⊢
      by_cases hf : (insertAfterSib sid x c).2
      · rw [if_pos hf]
        right
        simp only [adjSibL, Bool.or_eq_true]
        exact Or.inl (adjSib_insertAfter_est sid x c hf)
      · rw [if_neg hf] at h ⊢
        simp only at h
        rcases adjSibL_insertAfter_est sid x cs h with h1 | h1
        · left
          simp only [idsOf, List.map_cons]
          apply adjIn_cons
          simpa [idsOf] using h1
        · right
          simp only [adjSibL, Bool.or_eq_true]
          exact Or.inr h1

end

mutual

theorem adjSib_insertBefore_est (sid : Nat) (x : DNode) :
    ∀ d : DNode, (insertBeforeSib sid x d).2 = true →
      adjSib (rootId x) sid (insertBeforeSib sid x d).1 = true
  | .node e cs, h => by
    simp only [insertBeforeSib] at h ⊢
    simp only [adjSib, Bool.or_eq_true]
    rcases adjSibL_insertBefore_est sid x cs h with h1 | h1
    · exact Or.inl h1
    · exact Or.inr h1

theorem adjSibL_insertBefore_est (sid : Nat) (x : DNode) :
    ∀ cs : List DNode, (insertBeforeSibL sid x cs).2 = true →
      adjIn (rootId x) sid (idsOf (insertBeforeSibL sid x cs).1) = true ∨
      adjSibL (rootId x) sid (insertBeforeSibL sid x cs).1 = true
  | [], h => by simp [insertBeforeSibL] at h
  | c :: cs, h => by
    simp only [insertBeforeSibL] at h ⊢
    by_cases hc : rootId c = sid
    · rw [if_pos hc]
      left
      rw [adjIn_iff]
      exact ⟨[], idsOf cs, by simp [idsOf, hc]⟩
    · rw [if_neg hc] at h ⊢
      by_cases hf : (insertBeforeSib sid x c).2
      · rw [if_pos hf]
        right
        simp only [adjSibL, Bool.or_eq_true]
        exact Or.inl (adjSib_insertBefore_est sid x c hf)
      · rw [if_neg hf] at h ⊢
        simp only at h
        rcases adjSibL_insertBefore_est sid x cs h with h1 | h1
        · left
          simp only [idsOf, List.map_cons]
          apply adjIn_cons
          simpa [idsOf] using h1
        · right
          simp only [adjSibL, Bool.or_eq_true]
          exact Or.inr h1

end

/-! Head of the root child list under the structural operations. -/

theorem rootChildIds_prependToRoot (x : DNode) :
    ∀ d : DNode, rootChildIds (prependToRoot x d) = rootId x :: rootChildIds d
  | .node e cs => by simp [prependToRoot, rootChildIds, childrenOf, idsOf]

theorem rootChildIds_extract (i : Nat) :
    ∀ d : DNode, rootChildIds (extract i d).1 = (rootChildIds d).erase i ∨
      rootChildIds (extract i d).1 = rootChildIds d
  | .node e cs => by
    simp only [extract, rootChildIds, childrenOf]
    cases h2 : (extractL i cs).2 with
    | some sub => exact idsOf_extractL i cs sub h2
    | none =>
      right
      rw [extractL_none i cs h2]

theorem rootChildIds_appendChild (pid : Nat) (x : DNode) :
    ∀ d : DNode, pid ≠ rootId d → rootChildIds (appendChild pid x d).1 = rootChildIds d
  | .node e cs, hne => by
    have he : ¬(e.eid = pid) := fun h => hne (by simp [rootId, rootElem, h])
    simp only [appendChild, if_neg he, rootChildIds, childrenOf]
    exact idsOf_appendChildL pid x cs

theorem rootChildIds_updateById (i : Nat) (f : Elem → Elem) (hid : ∀ e, (f e).eid = e.eid) :
    ∀ d : DNode, rootChildIds (updateById i f d) = rootChildIds d
  | .node e cs => by
    simp only [updateById, rootChildIds, childrenOf]
    exact idsOf_updateByIdL i f hid cs

theorem head_erase_of_ne {l : List Nat} {h i : Nat} (hh : l.head? = some h) (hne : h ≠ i) :
    (l.erase i).head? = some h := by
  cases l with
  | nil => simp at hh
  | cons a t =>
    simp only [List.head?_cons, Option.some.injEq] at hh
    subst hh
    rw [List.erase_cons_tail]
    · simp
    · simp only [beq_iff_eq]
      exact hne

theorem rootChildIds_head_moveInto (pid bid nid : Nat) (d : DNode)
    (hhead : (rootChildIds d).head? = some nid) (hne : nid ≠ bid) (hpid : pid ≠ rootId d) :
    (rootChildIds (moveIntoById pid bid d)).head? = some nid := by
  unfold moveIntoById
  cases h2 : (extract bid d).2 with
  | none =>
    simp only [h2]
    exact hhead
  | some sub =>
    simp only [h2]
    by_cases hfl : (appendChild pid sub (extract bid d).1).2
    · rw [if_pos hfl]
      have hstep : (rootChildIds (extract bid d).1).head? = some nid := by
        rcases rootChildIds_extract bid d with hE | hS
        · rw [hE]
          exact head_erase_of_ne hhead hne
        · rw [hS]
          exact hhead
      rw [rootChildIds_appendChild pid sub _ (by rw [rootId_extract]; exact hpid)]
      exact hstep
    · rw [if_neg hfl]
      exact hhead

/-! Facts tying the queried special elements to the sane document. -/

theorem hasParent_of_special_find (d : DNode) (p : Elem → Bool)
    (himp : ∀ e, p e = true → specialElem e = true)
    (hnodup : (docIds d).Nodup) (hroot : rootIsPlain d = true)
    (j : Nat) (hfind : findId? p d = some j) : (parentOf? j d).isSome = true := by
  apply parentOf?_isSome_of_mem j d (findId?_mem_docIds p d j hfind)
  intro heq
  obtain ⟨e, he, heid, hpe⟩ := mem_elems_of_findId? p d j hfind
  have hre : rootElem d ∈ elems d := rootElem_mem_elems d
  have heq2 := elem_eq_of_eid hnodup he hre (by rw [heid, heq]; rfl)
  simp only [rootIsPlain, Bool.and_eq_true, Bool.not_eq_eq_eq_not, Bool.not_true] at hroot
  rw [heq2] at hpe
  have hsp := himp _ hpe
  rw [hroot.2] at hsp
  exact Bool.noConfusion hsp

theorem btn_ne_special (d : DNode) (hnodup : (docIds d).Nodup) (btn : Nat)
    (sub0 : DNode) (hrs0 : rootId sub0 = btn)
    (hsplit0 : ∃ A B, elems d = A ++ elems sub0 ++ B)
    (hcln0 : (elems sub0).filter specialElem = [])
    (j : Nat) (p : Elem → Bool) (himp : ∀ e, p e = true → specialElem e = true)
    (hj : findId? p d = some j) : btn ≠ j :=
  fun heq => special_find_not_in_sub d sub0 p himp hnodup hsplit0 hcln0 j hj
    (heq ▸ (hrs0 ▸ rootId_mem_docIds sub0))

/-! Concrete documents used by witnesses and counterexamples. -/

/-- Document with two toggle instances: one directly under the body and one
inside the nav that already carries the mobile marker class. -/
def twoToggleDoc : DNode :=
  .node { eid := 0, tag := "body", classes := [], text := "" }
    [ .node { eid := 1, tag := "button", classes := ["theme-toggle"], text := "" } []
    , .node { eid := 2, tag := "nav", classes := [], text := "" }
        [ .node { eid := 3, tag := "button",
                  classes := ["theme-toggle", "theme-toggle-mobile"], text := "" } [] ] ]

/-- Observation of whether the element with identity i carries the mobile
marker class. -/
def mobileMarkerOn (i : Nat) (d : DNode) : Bool :=
  match findNode? i d with
  | some n => (rootElem n).hasClass "theme-toggle-mobile"
  | none => false

/-- Well-formed single-toggle document: a hamburger control, a nav and one
toggle button inside the nav. -/
def oneToggleDoc : DNode :=
  .node { eid := 0, tag := "body", classes := [], text := "" }
    [ .node { eid := 5, tag := "button", classes := ["nav-toggle"], text := "" } []
    , .node { eid := 2, tag := "nav", classes := [], text := "" }
        [ .node { eid := 3, tag := "button", classes := ["theme-toggle"], text := "" } [] ] ]

/-! Claim C1. -/

/-- C1 counterexample: the claim says width 768 classifies as Desktop and
width 769 as Mobile; the source comparison (innerWidth <= 768) classifies
768 as Mobile and 769 as Desktop, so the claimed pair of values is false. -/
theorem C1_counterexample :
    ¬(resolveViewportClass 768 = ViewportClass.desktop ∧
      resolveViewportClass 769 = ViewportClass.mobile) := by
  decide

/-- C1 (amended): the breakpoint comparison used by
placeThemeToggleForViewport is inclusive on the Mobile side: width 768 is
Mobile, width 769 is Desktop, and in general a width is Mobile exactly when
it is at most MOBILE_BREAKPOINT = 768. -/
theorem C1_viewport_breakpoint :
    resolveViewportClass 768 = ViewportClass.mobile ∧
    resolveViewportClass 769 = ViewportClass.desktop ∧
    (∀ innerWidth : Nat, viewportIsMobile innerWidth = true ↔ innerWidth ≤ MOBILE_BREAKPOINT) ∧
    (∀ innerWidth : Nat,
      resolveViewportClass innerWidth = ViewportClass.mobile ↔ innerWidth ≤ MOBILE_BREAKPOINT) := by
  refine ⟨by decide, by decide, ?_, ?_⟩
  · intro innerWidth
    simp [viewportIsMobile]
  · intro innerWidth
    unfold resolveViewportClass viewportIsMobile
    by_cases h : innerWidth ≤ MOBILE_BREAKPOINT <;> simp [h]

/-- C1 witness: the amended theorem evaluated at width 300. -/
theorem C1_witness : viewportIsMobile 300 = true :=
  (C1_viewport_breakpoint.2.2.1 300).mpr (by decide)

/-! Claim C4. -/

/-- C4 (amended): on every well-formed document (distinct node identities,
a root that matches none of the queried selectors, no navigation, hamburger
or container element inside the toggle button) holding at most one toggle
button, placeThemeToggleForViewport is idempotent for a fixed viewport
width: calling it twice gives exactly the document of one call, so repeated
calls accumulate no duplicate containers and re-parent nothing. -/
theorem C4_place_idempotent (w : Nat) (d : DNode) (h : saneDoc d) :
    placeThemeToggleForViewport w (placeThemeToggleForViewport w d)
      = placeThemeToggleForViewport w d := by
  obtain ⟨hnodup, hcount, hroot, hclean⟩ := h
  cases hfind : findId? isThemeToggle d with
  | none => rw [place_of_no_button w d hfind, place_of_no_button w d hfind]
  | some btn =>
    obtain ⟨hsingle, hbmem, hbroot, sub0, hsub0, hext0, hrs0, hcln0, hsplit0⟩ :=
      btn_core d hnodup hcount hroot hclean btn hfind
    by_cases hm : viewportIsMobile w = true
    · cases hmt : findId? isMobileTools d with
      | some mc =>
        have hres : (match findId? isMobileTools d with
                     | some m => some m
                     | none => findId? isHeaderActions d) = some mc := by rw [hmt]
        exact mobile_existing_main w d btn mc hnodup hsingle hbmem hbroot sub0 hext0 hcln0
          hfind hm hres (findId?_mem_docIds _ d mc hmt)
          (special_find_not_in_sub d sub0 isMobileTools specialElem_of_isMobileTools hnodup
            hsplit0 hcln0 mc hmt)
      | none =>
        cases hha : findId? isHeaderActions d with
        | some mc =>
          have hres : (match findId? isMobileTools d with
                       | some m => some m
                       | none => findId? isHeaderActions d) = some mc := by
            rw [hmt]
            exact hha
          exact mobile_existing_main w d btn mc hnodup hsingle hbmem hbroot sub0 hext0 hcln0
            hfind hm hres (findId?_mem_docIds _ d mc hha)
            (special_find_not_in_sub d sub0 isHeaderActions specialElem_of_isHeaderActions
              hnodup hsplit0 hcln0 mc hha)
        | none =>
          exact mobile_create_main w d btn hnodup hsingle hbmem hbroot sub0 hsub0 hcln0
            hsplit0 hfind hm hmt hha
    · exact desktop_main w d btn hnodup hsingle hbmem hbroot sub0 hext0 hcln0 hfind hm

/-- C4 counterexample: with two toggle instances the claim fails as stated:
at desktop width the first call moves the first button to the end of the
nav, after which the second call finds the other button first and strips
its mobile marker class, so the document after two calls differs from the
document after one. -/
theorem C4_counterexample :
    placeThemeToggleForViewport 1000 (placeThemeToggleForViewport 1000 twoToggleDoc)
      ≠ placeThemeToggleForViewport 1000 twoToggleDoc := by
  intro h
  have h2 := congrArg (mobileMarkerOn 3) h
  have e1 : mobileMarkerOn 3
      (placeThemeToggleForViewport 1000 (placeThemeToggleForViewport 1000 twoToggleDoc))
      = false := rfl
  have e2 : mobileMarkerOn 3 (placeThemeToggleForViewport 1000 twoToggleDoc) = true := rfl
  rw [e1, e2] at h2
  exact Bool.noConfusion h2

/-- C4 witness: the amended idempotence theorem applied to a concrete
well-formed document at mobile width. -/
theorem C4_witness :
    saneDoc oneToggleDoc ∧
      placeThemeToggleForViewport 500 (placeThemeToggleForViewport 500 oneToggleDoc)
        = placeThemeToggleForViewport 500 oneToggleDoc :=
  ⟨by decide, C4_place_idempotent 500 oneToggleDoc (by decide)⟩

/-! Claim C5. -/

/-- C5: container resolution of the Mobile branch of
placeThemeToggleForViewport on a well-formed document.  When a designated
container (.mobile-tools, else .header-actions) already exists it is used
without creating anything: the set of element identities is unchanged and
the button ends up as its child.  When none exists, exactly one new element
(the fresh identity) is created, and it is inserted by the first applicable
rule: directly after the hamburger control if one exists, else directly
before the nav element, else as the first child of the body. -/
theorem C5_container_rules (w : Nat) (d : DNode) (btn : Nat)
    (hsane : saneDoc d) (hm : viewportIsMobile w = true)
    (hfind : findId? isThemeToggle d = some btn) :
    (∀ mc, (match findId? isMobileTools d with
            | some m => some m
            | none => findId? isHeaderActions d) = some mc →
       (docIds (placeThemeToggleForViewport w d)).Perm (docIds d) ∧
       parentOf? btn (placeThemeToggleForViewport w d) = some mc) ∧
    (findId? isMobileTools d = none → findId? isHeaderActions d = none →
      ((docIds (placeThemeToggleForViewport w d)).Perm (freshId d :: docIds d) ∧
       (∀ nt, findId? isNavToggleBtn d = some nt →
         adjSib nt (freshId d) (placeThemeToggleForViewport w d) = true) ∧
       (findId? isNavToggleBtn d = none → ∀ nv, findId? isNavElem d = some nv →
         adjSib (freshId d) nv (placeThemeToggleForViewport w d) = true) ∧
       (findId? isNavToggleBtn d = none → findId? isNavElem d = none →
         (rootChildIds (placeThemeToggleForViewport w d)).head? = some (freshId d)))) := by
  obtain ⟨hnodup, hcount, hroot, hclean⟩ := hsane
  obtain ⟨hsingle, hbmem, hbroot, sub0, hsub0, hext0, hrs0, hcln0, hsplit0⟩ :=
    btn_core d hnodup hcount hroot hclean btn hfind
  constructor
  · intro mc hres
    have hmc2 : mc ∈ docIds d ∧ mc ∉ docIds sub0 := by
      cases hx : findId? isMobileTools d with
      | some m =>
        rw [hx] at hres
        simp only [Option.some.injEq] at hres
        subst hres
        exact ⟨findId?_mem_docIds _ d m hx,
          special_find_not_in_sub d sub0 isMobileTools specialElem_of_isMobileTools hnodup
            hsplit0 hcln0 m hx⟩
      | none =>
        rw [hx] at hres
        simp only at hres
        exact ⟨findId?_mem_docIds _ d mc hres,
          special_find_not_in_sub d sub0 isHeaderActions specialElem_of_isHeaderActions hnodup
            hsplit0 hcln0 mc hres⟩
    obtain ⟨hM1, hM2, hM3⟩ := placed_facts_existing d btn mc hnodup hsingle hbmem hbroot
      sub0 hext0 hcln0 hmc2.1 hmc2.2
    rw [place_mobile_existing_eq w d btn mc hfind hm hres]
    constructor
    · rw [show addClassById btn "theme-toggle-mobile"
          (if parentOf? btn d = some mc then d else moveIntoById mc btn d)
          = updateById btn (addClassE "theme-toggle-mobile")
              (if parentOf? btn d = some mc then d else moveIntoById mc btn d) from rfl]
      rw [docIds_updateById _ _ (addClassE_eid _)]
      by_cases hpar : parentOf? btn d = some mc
      · rw [if_pos hpar]
      · rw [if_neg hpar]
        exact docIds_moveInto_perm mc btn d
    · rw [parentOf?_addClassById]
      exact hM3
  · intro hmt hha
    obtain ⟨⟨A, B, hAB1, hAB2⟩, hfnIns, hparIns⟩ :=
      create_insert_facts d btn sub0 hnodup hbmem hbroot hsub0 hcln0 hsplit0
    have hcond : ¬(parentOf? btn (insertContainerStep d) = some (freshId d)) := by
      rw [hparIns]
      intro h
      exact freshId_not_mem d (parentOf?_q_mem btn d (freshId d) h)
    have hplace1 : placeThemeToggleForViewport w d
        = addClassById btn "theme-toggle-mobile"
            (moveIntoById (freshId d) btn (insertContainerStep d)) := by
      rw [place_mobile_create_eq w d btn hfind hm hmt hha, if_neg hcond]
    rw [hplace1]
    have hbtnid : btn ≠ freshId d := fun h => freshId_not_mem d (h ▸ hbmem)
    have hextIns : (extract btn (insertContainerStep d)).2 = some sub0 := by
      rw [extract_eq_findNode btn (insertContainerStep d)
        (by rw [rootId_insertContainerStep]; exact fun h => hbroot h.symm)]
      exact hfnIns
    refine ⟨?_, ?_, ?_, ?_⟩
    · rw [show addClassById btn "theme-toggle-mobile"
          (moveIntoById (freshId d) btn (insertContainerStep d))
          = updateById btn (addClassE "theme-toggle-mobile")
              (moveIntoById (freshId d) btn (insertContainerStep d)) from rfl]
      rw [docIds_updateById _ _ (addClassE_eid _)]
      have hperm1 := docIds_moveInto_perm (freshId d) btn (insertContainerStep d)
      have hidsIns : docIds (insertContainerStep d)
          = A.map Elem.eid ++ [freshId d] ++ B.map Elem.eid := by
        simp [docIds, hAB2, elems_mobileToolsNode]
      have hidsd : docIds d = A.map Elem.eid ++ B.map Elem.eid := by
        simp [docIds, hAB1]
      rw [hidsIns] at hperm1
      apply hperm1.trans
      rw [hidsd]
      have hp1 : ((A.map Elem.eid ++ [freshId d]) ++ B.map Elem.eid).Perm
          (([freshId d] ++ A.map Elem.eid) ++ B.map Elem.eid) :=
        (List.perm_append_comm).append_right _
      have heq : ([freshId d] ++ A.map Elem.eid) ++ B.map Elem.eid
          = freshId d :: (A.map Elem.eid ++ B.map Elem.eid) := by
        simp
      rw [heq] at hp1
      exact hp1
    · intro nt hfnt
      have hntpar : (parentOf? nt d).isSome = true :=
        hasParent_of_special_find d isNavToggleBtn (fun e he => by simp [specialElem, he])
          hnodup hroot nt hfnt
      have hpt : hasParentIn d (findId? isNavToggleBtn d) = true := by
        rw [hfnt]
        simp [hasParentIn, hntpar]
      have hstep : insertContainerStep d = (insertAfterSib nt (mobileToolsNode d) d).1 := by
        unfold insertContainerStep
        rw [if_pos hpt, hfnt]
        simp [Option.getD_some]
      have hflag : (insertAfterSib nt (mobileToolsNode d) d).2 = true := by
        cases hq : parentOf? nt d with
        | none =>
          rw [hq] at hntpar
          simp at hntpar
        | some q => exact insertAfterSib_of_parent nt _ d q hq
      have hest : adjSib nt (freshId d) (insertContainerStep d) = true := by
        rw [hstep]
        have := adjSib_insertAfter_est nt (mobileToolsNode d) d hflag
        simpa [mobileToolsNode, rootId, rootElem] using this
      rw [show addClassById btn "theme-toggle-mobile"
          (moveIntoById (freshId d) btn (insertContainerStep d))
          = updateById btn (addClassE "theme-toggle-mobile")
              (moveIntoById (freshId d) btn (insertContainerStep d)) from rfl]
      rw [adjSib_updateById _ _ _ _ (addClassE_eid _)]
      apply adjSib_moveInto nt (freshId d) (freshId d) btn (insertContainerStep d)
        ?hba ?hbb ?hsub hest
      case hba =>
        exact fun h => (btn_ne_special d hnodup btn sub0 hrs0 hsplit0 hcln0 nt isNavToggleBtn
          (fun e he => by simp [specialElem, he]) hfnt) h
      case hbb => exact hbtnid
      case hsub =>
        intro sub hsub
        rw [hextIns] at hsub
        cases hsub
        exact special_find_not_in_sub d sub0 isNavToggleBtn
          (fun e he => by simp [specialElem, he]) hnodup hsplit0 hcln0 nt hfnt
    · intro hnt0 nv hfnv
      have hnvpar : (parentOf? nv d).isSome = true :=
        hasParent_of_special_find d isNavElem specialElem_of_isNavElem hnodup hroot nv hfnv
      have hpt0 : hasParentIn d (findId? isNavToggleBtn d) = false := by
        rw [hnt0]
        simp [hasParentIn]
      have hpt : hasParentIn d (findId? isNavElem d) = true := by
        rw [hfnv]
        simp [hasParentIn, hnvpar]
      have hstep : insertContainerStep d = (insertBeforeSib nv (mobileToolsNode d) d).1 := by
        unfold insertContainerStep
        rw [hpt0]
        simp only [Bool.false_eq_true, if_false]
        rw [if_pos hpt, hfnv]
        simp [Option.getD_some]
      have hflag : (insertBeforeSib nv (mobileToolsNode d) d).2 = true := by
        cases hq : parentOf? nv d with
        | none =>
          rw [hq] at hnvpar
          simp at hnvpar
        | some q => exact insertBeforeSib_of_parent nv _ d q hq
      have hest : adjSib (freshId d) nv (insertContainerStep d) = true := by
        rw [hstep]
        have := adjSib_insertBefore_est nv (mobileToolsNode d) d hflag
        simpa [mobileToolsNode, rootId, rootElem] using this
      rw [show addClassById btn "theme-toggle-mobile"
          (moveIntoById (freshId d) btn (insertContainerStep d))
          = updateById btn (addClassE "theme-toggle-mobile")
              (moveIntoById (freshId d) btn (insertContainerStep d)) from rfl]
      rw [adjSib_updateById _ _ _ _ (addClassE_eid _)]
      apply adjSib_moveInto (freshId d) nv (freshId d) btn (insertContainerStep d)
        ?hba2 ?hbb2 ?hsub2 hest
      case hba2 => exact hbtnid
      case hbb2 =>
        exact btn_ne_special d hnodup btn sub0 hrs0 hsplit0 hcln0 nv isNavElem
          specialElem_of_isNavElem hfnv
      case hsub2 =>
        intro sub hsub
        rw [hextIns] at hsub
        cases hsub
        intro hmem
        obtain ⟨A0, B0, hsp⟩ := hsplit0
        apply freshId_not_mem d
        have hids : docIds d = A0.map Elem.eid ++ docIds sub0 ++ B0.map Elem.eid := by
          simp [docIds, hsp]
        rw [hids]
        exact List.mem_append_left _ (List.mem_append_right _ hmem)
    · intro hnt0 hnv0
      have hpt0 : hasParentIn d (findId? isNavToggleBtn d) = false := by
        rw [hnt0]
        simp [hasParentIn]
      have hpt1 : hasParentIn d (findId? isNavElem d) = false := by
        rw [hnv0]
        simp [hasParentIn]
      have hstep : insertContainerStep d = prependToRoot (mobileToolsNode d) d := by
        unfold insertContainerStep
        rw [hpt0, hpt1]
        simp
      have hhead : (rootChildIds (insertContainerStep d)).head? = some (freshId d) := by
        rw [hstep, rootChildIds_prependToRoot]
        simp [mobileToolsNode, rootId, rootElem]
      rw [show addClassById btn "theme-toggle-mobile"
          (moveIntoById (freshId d) btn (insertContainerStep d))
          = updateById btn (addClassE "theme-toggle-mobile")
              (moveIntoById (freshId d) btn (insertContainerStep d)) from rfl]
      rw [rootChildIds_updateById _ _ (addClassE_eid _)]
      apply rootChildIds_head_moveInto (freshId d) btn (freshId d) (insertContainerStep d)
        hhead (fun h => hbtnid h.symm)
      rw [rootId_insertContainerStep]
      intro h
      exact freshId_not_mem d (h ▸ rootId_mem_docIds d)

/-- C5 witness: on a concrete well-formed document with a hamburger control
and no designated container, at mobile width the created container lands
directly after the hamburger control. -/
theorem C5_witness :
    saneDoc oneToggleDoc ∧
      adjSib 5 (freshId oneToggleDoc) (placeThemeToggleForViewport 500 oneToggleDoc) = true :=
  ⟨by decide,
    (((C5_container_rules 500 oneToggleDoc 3 (by decide) (by decide) rfl).2 rfl rfl).2.1) 5 rfl⟩

/-! Facts about the theme-state functions. -/

theorem rootHasClass_setTextById (c : String) (i : Nat) (v : String) (d : DNode) :
    rootHasClass c (setTextById i v d) = rootHasClass c d := by
  unfold rootHasClass setTextById
  rw [rootElem_updateById]
  by_cases h : (rootElem d).eid = i <;> simp [h, setTextE, Elem.hasClass]

theorem rootHasClass_updateToggleButton (c : String) (isDark : Bool) (bid : Nat) (d : DNode) :
    rootHasClass c (updateToggleButton isDark bid d) = rootHasClass c d := by
  unfold updateToggleButton
  cases h1 : findIdWithin? isThemeIcon bid d with
  | none =>
    cases h2 : findIdWithin? isThemeTextSpan bid d with
    | none => rfl
    | some t => rw [rootHasClass_setTextById]
  | some i =>
    cases h2 : findIdWithin? isThemeTextSpan bid d with
    | none => rw [rootHasClass_setTextById]
    | some t => rw [rootHasClass_setTextById, rootHasClass_setTextById]

theorem rootHasClass_fold_updateToggle (c : String) (isDark : Bool) :
    ∀ (L : List Nat) (d : DNode),
      rootHasClass c (L.foldl (fun acc bid => updateToggleButton isDark bid acc) d)
        = rootHasClass c d
  | [], d => rfl
  | b :: L, d => by
    simp only [List.foldl_cons]
    rw [rootHasClass_fold_updateToggle c isDark L (updateToggleButton isDark b d)]
    exact rootHasClass_updateToggleButton c isDark b d

theorem rootHasClass_updateAllToggleButtons (c : String) (isDark : Bool) (d : DNode) :
    rootHasClass c (updateAllToggleButtons isDark d) = rootHasClass c d := by
  unfold updateAllToggleButtons
  exact rootHasClass_fold_updateToggle c isDark (collectIds isThemeToggle d) d

/-- Characterization of a completed toggleTheme call. -/
theorem toggleTheme_ok_char (s s' : SiteState) (h : toggleTheme s = Except.ok s') :
    s.mode = StoreMode.available ∧
    rootHasClass "dark-theme" s'.doc
      = rootHasClass "dark-theme" (toggleClassRoot "dark-theme" s.doc) ∧
    s'.themeValue = some (if rootHasClass "dark-theme" (toggleClassRoot "dark-theme" s.doc)
      then "dark" else "light") := by
  unfold toggleTheme at h
  simp only [features, Bool.not_true, Bool.false_eq_true, if_false] at h
  unfold setItemTheme at h
  cases hm : s.mode with
  | unavailable =>
    rw [hm] at h
    simp at h
  | available =>
    rw [hm] at h
    simp only [Except.ok.injEq] at h
    refine ⟨rfl, ?_, ?_⟩
    · rw [← h]
      exact rootHasClass_updateAllToggleButtons "dark-theme" _ _
    · rw [← h]

theorem rootHasClass_addClassRoot (c : String) :
    ∀ d : DNode, rootHasClass c (addClassRoot c d) = true
  | .node e cs => by
    simp only [addClassRoot, rootHasClass, rootElem, addClassE]
    by_cases h : e.hasClass c
    · simp [h]
    · have h' : c ∉ e.classes := by simpa [Elem.hasClass] using h
      simp [h', Elem.hasClass]

theorem loadSavedTheme_available (s : SiteState) (hm : s.mode = StoreMode.available) :
    loadSavedTheme s
      = Except.ok (if s.themeValue = some "dark" then
          { s with doc := addClassRoot "dark-theme" s.doc } else s) := by
  unfold loadSavedTheme getItemTheme
  simp [features, hm]

/-! Concrete states for the witnesses. -/

def emptyBodyDoc : DNode := .node { eid := 0, tag := "body", classes := [], text := "" } []

def availState : SiteState :=
  { doc := emptyBodyDoc, themeValue := none, mode := .available }

def badStoreState : SiteState :=
  { doc := emptyBodyDoc, themeValue := none, mode := .unavailable }

def toggledState : SiteState :=
  { doc := .node { eid := 0, tag := "body", classes := ["dark-theme"], text := "" } []
    themeValue := some "dark", mode := .available }

def lightStoredState : SiteState :=
  { doc := .node { eid := 0, tag := "body", classes := ["dark-theme"], text := "" } []
    themeValue := some "light", mode := .available }

/-! Claim C2. -/

/-- C2: after every completed toggleTheme call the document-root dark
marker is present exactly when the persisted value equals "dark". -/
theorem C2_root_marker_iff_store (s s' : SiteState) (h : toggleTheme s = Except.ok s') :
    (rootHasClass "dark-theme" s'.doc = true ↔ s'.themeValue = some "dark") := by
  obtain ⟨_, hdoc, hval⟩ := toggleTheme_ok_char s s' h
  rw [hdoc, hval]
  by_cases hb : rootHasClass "dark-theme" (toggleClassRoot "dark-theme" s.doc) = true
  · simp [hb]
  · simp only [Bool.not_eq_true] at hb
    rw [hb]
    simp

/-- C2 witness: the invariant after toggling a fresh light state. -/
theorem C2_witness :
    (rootHasClass "dark-theme" toggledState.doc = true
      ↔ toggledState.themeValue = some "dark") :=
  C2_root_marker_iff_store availState toggledState rfl

/-! Claim C3. -/

/-- C3 counterexample: with the store unavailable, toggleTheme raises: the
localStorage.setItem call on source line 32 has no try/catch around it, so
the claim that the write never propagates an error is false. -/
theorem C3_counterexample :
    toggleTheme badStoreState = Except.error StoreErr.storeUnavailable := rfl

/-- C3 (amended): toggleTheme completes without error whenever the store is
available, but when the store is unavailable the write error propagates out
of toggleTheme unhandled. -/
theorem C3_setitem_unguarded (s : SiteState) :
    (s.mode = StoreMode.available → ∃ s', toggleTheme s = Except.ok s') ∧
    (s.mode = StoreMode.unavailable → toggleTheme s = Except.error StoreErr.storeUnavailable) := by
  constructor
  · intro hm
    unfold toggleTheme setItemTheme
    simp only [features, Bool.not_true, Bool.false_eq_true, if_false, hm]
    exact ⟨_, rfl⟩
  · intro hm
    unfold toggleTheme setItemTheme
    simp [features, hm]

/-- C3 witness: the amended theorem at an available and at an unavailable
store. -/
theorem C3_witness :
    (∃ s', toggleTheme availState = Except.ok s') ∧
      toggleTheme badStoreState = Except.error StoreErr.storeUnavailable :=
  ⟨(C3_setitem_unguarded availState).1 rfl, (C3_setitem_unguarded badStoreState).2 rfl⟩

/-! Claim C6. -/

/-- C6: the theme produced by a completed toggle, once persisted, is
reproduced on the root of a fresh document by a subsequent load. -/
theorem C6_round_trip (s s' : SiteState) (d0 : DNode)
    (h : toggleTheme s = Except.ok s')
    (h0 : rootHasClass "dark-theme" d0 = false) :
    ∃ t, loadSavedTheme { doc := d0, themeValue := s'.themeValue, mode := StoreMode.available }
        = Except.ok t ∧
      rootHasClass "dark-theme" t.doc = rootHasClass "dark-theme" s'.doc := by
  obtain ⟨_, hdoc, hval⟩ := toggleTheme_ok_char s s' h
  rw [loadSavedTheme_available _ rfl]
  refine ⟨_, rfl, ?_⟩
  simp only [hval, hdoc]
  by_cases hb : rootHasClass "dark-theme" (toggleClassRoot "dark-theme" s.doc) = true
  · rw [hb]
    simp [rootHasClass_addClassRoot]
  · simp only [Bool.not_eq_true] at hb
    rw [hb]
    simp only [Bool.false_eq_true, if_false]
    rw [if_neg (by simp)]
    exact h0

/-- C6 witness: the round trip after toggling a fresh light state. -/
theorem C6_witness :
    ∃ t, loadSavedTheme
        { doc := emptyBodyDoc, themeValue := toggledState.themeValue,
          mode := StoreMode.available } = Except.ok t ∧
      rootHasClass "dark-theme" t.doc = rootHasClass "dark-theme" toggledState.doc :=
  C6_round_trip availState toggledState emptyBodyDoc rfl rfl

/-! Claim C7. -/

/-- C7: loadSavedTheme maps the persisted value "dark" to Dark and every
other value to Light, leaves the store untouched, and adds the root marker
exactly when the loaded state is Dark. -/
theorem C7_load_maps (s : SiteState) (hm : s.mode = StoreMode.available) :
    loadedThemeState (some "dark") = ThemeState.dark ∧
    (∀ v : Option String, v ≠ some "dark" → loadedThemeState v = ThemeState.light) ∧
    (∃ s', loadSavedTheme s = Except.ok s' ∧ s'.themeValue = s.themeValue ∧
      rootHasClass "dark-theme" s'.doc
        = (rootHasClass "dark-theme" s.doc
            || decide (loadedThemeState s.themeValue = ThemeState.dark))) := by
  refine ⟨rfl, ?_, ?_⟩
  · intro v hv
    unfold loadedThemeState
    simp [hv]
  · rw [loadSavedTheme_available s hm]
    refine ⟨_, rfl, ?_, ?_⟩
    · by_cases hv : s.themeValue = some "dark" <;> simp [hv]
    · unfold loadedThemeState
      by_cases hv : s.themeValue = some "dark"
      · simp [hv, rootHasClass_addClassRoot]
      · simp [hv]

/-- C7 witness: loading a state whose store holds "light". -/
theorem C7_witness :
    loadedThemeState (some "dark") = ThemeState.dark ∧
    (∀ v : Option String, v ≠ some "dark" → loadedThemeState v = ThemeState.light) ∧
    (∃ s', loadSavedTheme lightStoredState = Except.ok s' ∧
      s'.themeValue = lightStoredState.themeValue ∧
      rootHasClass "dark-theme" s'.doc
        = (rootHasClass "dark-theme" lightStoredState.doc
            || decide (loadedThemeState lightStoredState.themeValue = ThemeState.dark))) :=
  C7_load_maps lightStoredState rfl

/-! Claim C9. -/

/-- C9: without a nav element in the document, addThemeToggleButton emits
the warning and returns with the state unchanged; no toggle is created and
no exception escapes. -/
theorem C9_missing_nav (w : Nat) (s : SiteState) (h : findId? isNavElem s.doc = none) :
    addThemeToggleButton w s = (s, ["⚠️ Navigation not found"]) := by
  unfold addThemeToggleButton
  simp [features, h]

/-- C9 witness: the nav-less empty body. -/
theorem C9_witness :
    addThemeToggleButton 1000 availState = (availState, ["⚠️ Navigation not found"]) :=
  C9_missing_nav 1000 availState rfl

/-! Claim C10. -/

/-- C10: loadSavedTheme never removes the root dark marker; for any stored
value other than "dark" the state is left entirely unchanged. -/
theorem C10_load_keeps_marker (s : SiteState) (hm : s.mode = StoreMode.available) :
    ∃ s', loadSavedTheme s = Except.ok s' ∧
      (rootHasClass "dark-theme" s.doc = true → rootHasClass "dark-theme" s'.doc = true) ∧
      (s.themeValue ≠ some "dark" → s' = s) := by
  rw [loadSavedTheme_available s hm]
  refine ⟨_, rfl, ?_, ?_⟩
  · intro hd
    by_cases hv : s.themeValue = some "dark"
    · simp [hv, rootHasClass_addClassRoot]
    · simp [hv, hd]
  · intro hv
    simp [hv]

/-- C10 witness: a marked root with the store holding "light" stays marked
and the state is unchanged. -/
theorem C10_witness :
    ∃ s', loadSavedTheme lightStoredState = Except.ok s' ∧
      (rootHasClass "dark-theme" lightStoredState.doc = true →
        rootHasClass "dark-theme" s'.doc = true) ∧
      (lightStoredState.themeValue ≠ some "dark" → s' = lightStoredState) :=
  C10_load_keeps_marker lightStoredState rfl

/-! Claim C8: machinery for the per-button text updates. -/

/-! A subtree found by identity consists of elements of the document. -/

mutual

theorem elems_sub_of_findNode? (i : Nat) :
    ∀ d : DNode, ∀ n, findNode? i d = some n → ∀ e ∈ elems n, e ∈ elems d
  | .node a cs, n => by
    simp only [findNode?]
    by_cases ha : a.eid = i
    · rw [if_pos ha]
      intro h
      cases h
      exact fun e he => he
    · rw [if_neg ha]
      intro h e he
      have hm := elemsL_sub_of_findNodeL? i cs n h e he
      rw [elems_node]
      exact List.mem_cons_of_mem a hm

theorem elemsL_sub_of_findNodeL? (i : Nat) :
    ∀ cs : List DNode, ∀ n, findNodeL? i cs = some n → ∀ e ∈ elems n, e ∈ elemsL cs
  | [], n => by simp [findNodeL?]
  | c :: cs, n => by
    simp only [findNodeL?]
    cases hc : findNode? i c with
    | some r =>
      intro h e he
      cases h
      have hm := elems_sub_of_findNode? i c n hc e he
      simp only [elemsL, List.mem_append]
      exact Or.inl hm
    | none =>
      intro h e he
      have hm := elemsL_sub_of_findNodeL? i cs n h e he
      simp only [elemsL, List.mem_append]
      exact Or.inr hm

end

/-- The target of a scoped query is a matching element of the document. -/
theorem findIdWithin?_target (p : Elem → Bool) (b j : Nat) (d : DNode)
    (h : findIdWithin? p b d = some j) :
    ∃ e, e ∈ elems d ∧ e.eid = j ∧ p e = true := by
  unfold findIdWithin? at h
  cases hf : findNode? b d with
  | none =>
    rw [hf] at h
    dsimp only at h
    simp at h
  | some n =>
    rw [hf] at h
    dsimp only at h
    cases hl : (elemsL (childrenOf n)).filter p with
    | nil => rw [hl] at h; simp at h
    | cons e rest =>
      rw [hl] at h
      simp only [List.map_cons, List.head?_cons, Option.some.injEq] at h
      have he : e ∈ (elemsL (childrenOf n)).filter p := by
        rw [hl]
        exact List.mem_cons_self e rest
      have hm := List.mem_filter.mp he
      have hsubn : e ∈ elems n := by
        cases n with
        | node a cs =>
          rw [elems_node]
          exact List.mem_cons_of_mem a hm.1
      exact ⟨e, elems_sub_of_findNode? b d n hf e hsubn, h, hm.2⟩

/-- A scoped-query target lies in the document identity list. -/
theorem findIdWithin?_mem_docIds (p : Elem → Bool) (b j : Nat) (d : DNode)
    (h : findIdWithin? p b d = some j) : j ∈ docIds d := by
  obtain ⟨e, he, heid, _⟩ := findIdWithin?_target p b j d h
  exact heid ▸ List.mem_map_of_mem Elem.eid he

/-- Every element of the document has a text content. -/
theorem textOfId?_isSome_of_mem (j : Nat) (d : DNode) (h : j ∈ docIds d) :
    ∃ s, textOfId? j d = some s := by
  have hs := (findNode?_isSome_iff j d).mpr h
  cases hf : findNode? j d with
  | none => rw [hf] at hs; simp at hs
  | some n => exact ⟨(rootElem n).text, by simp [textOfId?, hf]⟩

/-- Scoped queries are unaffected by an identity- and predicate-preserving
pointwise update. -/
theorem findIdWithin?_updateById (p : Elem → Bool) (j i : Nat) (f : Elem → Elem)
    (hid : ∀ e, (f e).eid = e.eid) (hp : ∀ e, p (f e) = p e) (d : DNode) :
    findIdWithin? p j (updateById i f d) = findIdWithin? p j d := by
  unfold findIdWithin?
  rw [findNode?_updateById j i f hid d]
  cases h : findNode? j d with
  | none => rfl
  | some n =>
    cases n with
    | node e cs =>
      simp only [Option.map_some', updateById, childrenOf]
      rw [elemsL_updateByIdL i f cs, filterMap_update_eq p i f hid hp]

theorem findIdWithin?_setTextById (p : Elem → Bool)
    (hp : ∀ e v, p (setTextE v e) = p e) (j i : Nat) (v : String) (d : DNode) :
    findIdWithin? p j (setTextById i v d) = findIdWithin? p j d :=
  findIdWithin?_updateById p j i (setTextE v) (fun _ => rfl) (fun e => hp e v) d

/-- textContent assignment: the stored text of the written element is
replaced, every other element keeps its text. -/
theorem textOfId?_setTextById (j i : Nat) (v : String) (d : DNode) :
    textOfId? j (setTextById i v d)
      = if j = i then (textOfId? j d).map (fun _ => v) else textOfId? j d := by
  unfold textOfId? setTextById
  rw [findNode?_updateById j i (setTextE v) (fun _ => rfl) d]
  cases h : findNode? j d with
  | none => simp
  | some n =>
    have hr : rootId n = j := findNode?_rootId j d n h
    cases n with
    | node e cs =>
      have he : e.eid = j := hr
      by_cases hj : j = i
      · subst hj
        simp [updateById, rootElem, he, setTextE]
      · have hne : ¬ e.eid = i := by rw [he]; exact hj
        simp [updateById, rootElem, hne, hj]

theorem map_const_map_const (x : Option String) (a b : String) :
    (x.map (fun _ => a)).map (fun _ => b) = x.map (fun _ => b) := by
  cases x <;> rfl

theorem docIds_setTextById (i : Nat) (v : String) (d : DNode) :
    docIds (setTextById i v d) = docIds d :=
  docIds_updateById i (setTextE v) (fun _ => rfl) d

/-- One forEach step leaves the identity structure unchanged. -/
theorem docIds_updateToggleButton (isDark : Bool) (bid : Nat) (d : DNode) :
    docIds (updateToggleButton isDark bid d) = docIds d := by
  unfold updateToggleButton
  cases h2 : findIdWithin? isThemeTextSpan bid d <;>
    cases h1 : findIdWithin? isThemeIcon bid d <;>
      simp [docIds_setTextById]

/-- One forEach step leaves every class-based scoped query unchanged. -/
theorem findIdWithin?_updateToggleButton (p : Elem → Bool)
    (hp : ∀ e v, p (setTextE v e) = p e) (isDark : Bool) (bid j : Nat) (d : DNode) :
    findIdWithin? p j (updateToggleButton isDark bid d) = findIdWithin? p j d := by
  unfold updateToggleButton
  cases h2 : findIdWithin? isThemeTextSpan bid d <;>
    cases h1 : findIdWithin? isThemeIcon bid d <;>
      simp [findIdWithin?_setTextById p hp]

/-- Text contents after one forEach step: the label target receives the
label value, the icon target the glyph, every other text is unchanged. -/
theorem textOfId?_updateToggleButton (isDark : Bool) (bid j : Nat) (d : DNode) :
    textOfId? j (updateToggleButton isDark bid d)
      = if findIdWithin? isThemeTextSpan bid d = some j then
          (textOfId? j d).map (fun _ => if isDark then "Light" else "Dark")
        else if findIdWithin? isThemeIcon bid d = some j then
          (textOfId? j d).map (fun _ => if isDark then "☀️" else "🌙")
        else textOfId? j d := by
  unfold updateToggleButton
  cases h2 : findIdWithin? isThemeTextSpan bid d with
  | none =>
    cases h1 : findIdWithin? isThemeIcon bid d with
    | none => simp
    | some i =>
      simp only [textOfId?_setTextById]
      by_cases hj : j = i
      · subst hj
        simp
      · have hne : ¬ (some i = some j) := fun hc => hj (Option.some.inj hc).symm
        simp [hj, hne]
  | some t =>
    cases h1 : findIdWithin? isThemeIcon bid d with
    | none =>
      simp only [textOfId?_setTextById]
      by_cases hj : j = t
      · subst hj
        simp
      · have hne : ¬ (some t = some j) := fun hc => hj (Option.some.inj hc).symm
        simp [hj, hne]
    | some i =>
      simp only [textOfId?_setTextById]
      by_cases hj : j = t
      · subst hj
        by_cases hi : j = i
        · simp [hi]
          cases textOfId? i d <;> rfl
        · simp [hi]
      · have hne : ¬ (some t = some j) := fun hc => hj (Option.some.inj hc).symm
        by_cases hi : j = i
        · subst hi
          simp [hj, hne]
        · have hne2 : ¬ (some i = some j) := fun hc => hi (Option.some.inj hc).symm
          simp [hj, hi, hne, hne2]

/-- No element carries both the icon class and the label class. -/
def iconTextDisjoint (d : DNode) : Bool :=
  (elems d).all (fun e => !(isThemeIcon e && isThemeTextSpan e))

/-- With distinct identities and disjoint sub-element classes, no identity
is at once an icon target and a label target. -/
theorem icon_text_targets_disjoint (d : DNode) (hnodup : (docIds d).Nodup)
    (hdisj : iconTextDisjoint d = true) (b b' j : Nat)
    (hi : findIdWithin? isThemeIcon b d = some j)
    (ht : findIdWithin? isThemeTextSpan b' d = some j) : False := by
  obtain ⟨e1, he1, heid1, hp1⟩ := findIdWithin?_target _ b j d hi
  obtain ⟨e2, he2, heid2, hp2⟩ := findIdWithin?_target _ b' j d ht
  have heq : e1 = e2 := elem_eq_of_eid hnodup he1 he2 (heid1.trans heid2.symm)
  subst heq
  have hall := List.all_eq_true.mp hdisj e1 he1
  rw [hp1, hp2] at hall
  simp at hall

/-- Invariant of the forEach fold of updateAllToggleButtons: scoped queries
and the identity structure are stable, the frame is untouched, and each
icon (label) target ends at the canonical glyph (label) for the state. -/
theorem updateToggle_fold_master (isDark : Bool) (d : DNode) :
    ∀ (L : List Nat) (acc : DNode),
      (∀ b, findIdWithin? isThemeIcon b acc = findIdWithin? isThemeIcon b d) →
      (∀ b, findIdWithin? isThemeTextSpan b acc = findIdWithin? isThemeTextSpan b d) →
      docIds acc = docIds d →
      docIds (L.foldl (fun a bid => updateToggleButton isDark bid a) acc) = docIds d ∧
      (∀ j, (∀ b ∈ L, findIdWithin? isThemeIcon b d ≠ some j ∧
            findIdWithin? isThemeTextSpan b d ≠ some j) →
        textOfId? j (L.foldl (fun a bid => updateToggleButton isDark bid a) acc)
          = textOfId? j acc) ∧
      (∀ j, (∃ b ∈ L, findIdWithin? isThemeIcon b d = some j) →
        (∀ b, findIdWithin? isThemeTextSpan b d ≠ some j) →
        textOfId? j (L.foldl (fun a bid => updateToggleButton isDark bid a) acc)
          = some (if isDark then "☀️" else "🌙")) ∧
      (∀ j, (∃ b ∈ L, findIdWithin? isThemeTextSpan b d = some j) →
        (∀ b, findIdWithin? isThemeIcon b d ≠ some j) →
        textOfId? j (L.foldl (fun a bid => updateToggleButton isDark bid a) acc)
          = some (if isDark then "Light" else "Dark"))
  | [], acc => by
    intro _ _ H3
    refine ⟨H3, fun j _ => rfl, ?_, ?_⟩
    · rintro j ⟨b, hb, _⟩ _
      simp at hb
    · rintro j ⟨b, hb, _⟩ _
      simp at hb
  | b :: L, acc => by
    intro H1 H2 H3
    have hpIcon : ∀ (e : Elem) (v : String), isThemeIcon (setTextE v e) = isThemeIcon e :=
      fun _ _ => rfl
    have hpText : ∀ (e : Elem) (v : String), isThemeTextSpan (setTextE v e) = isThemeTextSpan e :=
      fun _ _ => rfl
    have H1' : ∀ b2, findIdWithin? isThemeIcon b2 (updateToggleButton isDark b acc)
        = findIdWithin? isThemeIcon b2 d := by
      intro b2
      rw [findIdWithin?_updateToggleButton _ hpIcon]
      exact H1 b2
    have H2' : ∀ b2, findIdWithin? isThemeTextSpan b2 (updateToggleButton isDark b acc)
        = findIdWithin? isThemeTextSpan b2 d := by
      intro b2
      rw [findIdWithin?_updateToggleButton _ hpText]
      exact H2 b2
    have H3' : docIds (updateToggleButton isDark b acc) = docIds d := by
      rw [docIds_updateToggleButton]
      exact H3
    have IH := updateToggle_fold_master isDark d L (updateToggleButton isDark b acc) H1' H2' H3'
    rw [List.foldl_cons]
    refine ⟨IH.1, ?_, ?_, ?_⟩
    · intro j hj
      have hb := hj b (List.mem_cons_self b L)
      have hfr := IH.2.1 j (fun b2 hb2 => hj b2 (List.mem_cons_of_mem b hb2))
      rw [hfr, textOfId?_updateToggleButton, H2 b, H1 b, if_neg hb.2, if_neg hb.1]
    · rintro j ⟨b0, hb0mem, hb0⟩ hnot
      by_cases hbL : ∃ b2 ∈ L, findIdWithin? isThemeIcon b2 d = some j
      · exact IH.2.2.1 j hbL hnot
      · have hb0b : findIdWithin? isThemeIcon b d = some j := by
          rcases List.mem_cons.mp hb0mem with h | h
          · exact h ▸ hb0
          · exact absurd ⟨b0, h, hb0⟩ hbL
        have hfr := IH.2.1 j (fun b2 hb2 => ⟨fun hc => hbL ⟨b2, hb2, hc⟩, hnot b2⟩)
        rw [hfr, textOfId?_updateToggleButton, H2 b, H1 b, if_neg (hnot b), if_pos hb0b]
        have hjmem : j ∈ docIds d := findIdWithin?_mem_docIds _ b j d hb0b
        obtain ⟨s, hs⟩ := textOfId?_isSome_of_mem j acc (H3 ▸ hjmem)
        rw [hs]
        rfl
    · rintro j ⟨b0, hb0mem, hb0⟩ hnot
      by_cases hbL : ∃ b2 ∈ L, findIdWithin? isThemeTextSpan b2 d = some j
      · exact IH.2.2.2 j hbL hnot
      · have hb0b : findIdWithin? isThemeTextSpan b d = some j := by
          rcases List.mem_cons.mp hb0mem with h | h
          · exact h ▸ hb0
          · exact absurd ⟨b0, h, hb0⟩ hbL
        have hfr := IH.2.1 j (fun b2 hb2 => ⟨hnot b2, fun hc => hbL ⟨b2, hb2, hc⟩⟩)
        rw [hfr, textOfId?_updateToggleButton, H2 b, if_pos hb0b]
        have hjmem : j ∈ docIds d := findIdWithin?_mem_docIds _ b j d hb0b
        obtain ⟨s, hs⟩ := textOfId?_isSome_of_mem j acc (H3 ▸ hjmem)
        rw [hs]
        rfl

/-- C8: with distinct identities and icon/label classes disjoint, after
updateAllToggleButtons every toggle instance's present icon sub-element
holds the canonical glyph and its present label sub-element the canonical
label for the state (an instance missing one sub-element has only the
present one set), the text of every non-target element is unchanged, and
with zero instances the document is unchanged; the function is total, so
no error is raised in any case. -/
theorem C8_sync_all (isDark : Bool) (d : DNode)
    (hnodup : (docIds d).Nodup) (hdisj : iconTextDisjoint d = true) :
    (collectIds isThemeToggle d = [] → updateAllToggleButtons isDark d = d) ∧
    (∀ b ∈ collectIds isThemeToggle d,
      (∀ i, findIdWithin? isThemeIcon b d = some i →
          textOfId? i (updateAllToggleButtons isDark d)
            = some (if isDark then "☀️" else "🌙")) ∧
      (∀ t, findIdWithin? isThemeTextSpan b d = some t →
          textOfId? t (updateAllToggleButtons isDark d)
            = some (if isDark then "Light" else "Dark"))) ∧
    (∀ j, (∀ b ∈ collectIds isThemeToggle d,
          findIdWithin? isThemeIcon b d ≠ some j ∧
            findIdWithin? isThemeTextSpan b d ≠ some j) →
        textOfId? j (updateAllToggleButtons isDark d) = textOfId? j d) := by
  have master := updateToggle_fold_master isDark d (collectIds isThemeToggle d) d
    (fun _ => rfl) (fun _ => rfl) rfl
  refine ⟨?_, ?_, ?_⟩
  · intro h
    unfold updateAllToggleButtons
    rw [h]
    rfl
  · intro b hb
    constructor
    · intro i hi
      exact master.2.2.1 i ⟨b, hb, hi⟩
        (fun b' hc => icon_text_targets_disjoint d hnodup hdisj b b' i hi hc)
    · intro t ht
      exact master.2.2.2 t ⟨b, hb, ht⟩
        (fun b' hc => icon_text_targets_disjoint d hnodup hdisj b' b t hc ht)
  · intro j hj
    exact master.2.1 j hj

/-- Two toggle instances; instance 4 lacks a label sub-element. -/
def twoBtnDoc : DNode :=
  .node { eid := 0, tag := "body", classes := [], text := "" }
    [ .node { eid := 1, tag := "button", classes := ["theme-toggle"], text := "" }
        [ .node { eid := 2, tag := "span", classes := ["theme-icon"], text := "🌙" } []
        , .node { eid := 3, tag := "span", classes := ["theme-text"], text := "Dark" } [] ]
    , .node { eid := 4, tag := "button", classes := ["theme-toggle"], text := "" }
        [ .node { eid := 5, tag := "span", classes := ["theme-icon"], text := "🌙" } [] ] ]

/-- C8 witness: two toggle instances, one missing its label sub-element,
synchronised to the dark state. -/
theorem C8_witness :
    (collectIds isThemeToggle twoBtnDoc = [] →
        updateAllToggleButtons true twoBtnDoc = twoBtnDoc) ∧
    (∀ b ∈ collectIds isThemeToggle twoBtnDoc,
      (∀ i, findIdWithin? isThemeIcon b twoBtnDoc = some i →
          textOfId? i (updateAllToggleButtons true twoBtnDoc)
            = some (if true then "☀️" else "🌙")) ∧
      (∀ t, findIdWithin? isThemeTextSpan b twoBtnDoc = some t →
          textOfId? t (updateAllToggleButtons true twoBtnDoc)
            = some (if true then "Light" else "Dark"))) ∧
    (∀ j, (∀ b ∈ collectIds isThemeToggle twoBtnDoc,
          findIdWithin? isThemeIcon b twoBtnDoc ≠ some j ∧
            findIdWithin? isThemeTextSpan b twoBtnDoc ≠ some j) →
        textOfId? j (updateAllToggleButtons true twoBtnDoc) = textOfId? j twoBtnDoc) :=
  C8_sync_all true twoBtnDoc (by decide) (by decide)

end EhanSite

